import Mathlib

/-!
# PhotonDB: shallow embedding of the slab storage engine, namespace layer,
query-executor stubs and wire handshake

This file embeds the parts of the PhotonDB repository that the verified
claims are about:

* `src/storage/slab/slot.rs` — slot identifiers;
* `src/storage/slab/size_class.rs` — size classes with a min-heap of free
  offsets and a high-water `next_offset`;
* `src/storage/slab/allocator.rs` — the slab allocator over per-class files;
* `src/storage/slab/metadata.rs` — the checksummed append-only metadata log,
  its recovery loop and compaction;
* `src/storage/slab/cache.rs` — the LRU value cache;
* `src/storage/slab/compression.rs` — the compression codec glue;
* `src/storage/slab/storage.rs` — the composed `SlabStorage` engine;
* `src/storage/slab/engine.rs` — the namespace layer (`create_database` etc.);
* `src/query/executor.rs` — the operator handlers relevant to the claims;
* `src/network/protocol.rs` — the server-side handshake.

Modelling conventions:

* Byte strings are `List Nat` (each entry standing for one byte).
* Machine integers (`u16`, `u32`, `u64`) are `Nat`; where the source code
  truncates (casts to `u32`), the model takes `% 2 ^ 32` explicitly.
* Files are byte lists; a seek-then-write beyond the end of the file pads
  with zeros, as the OS does for sparse writes.
* I/O errors are out of scope: the modelled disk never fails, so the only
  errors are the ones the source raises itself (size checks, index checks,
  checksum failures, ...). Errors are an inductive `Err` carrying the values
  the source interpolates into its messages.
* External libraries are not re-implemented: the `zstd` codec is an abstract
  codec parameter, and the `serde_json` encoding of a metadata batch is
  modelled by an executable injective byte encoding with a matching decoder.
* Concurrency (locks, `Arc<RwLock<...>>`) is elided: every operation is a
  pure state transformer, which matches the serialized execution the locks
  enforce.
-/

set_option autoImplicit false

namespace PhotonDB

/-- Equality of fallible results is decidable when it is on both sides
(used to evaluate concrete scenarios). -/
instance {ε α : Type} [DecidableEq ε] [DecidableEq α] :
    DecidableEq (Except ε α) := fun x y =>
  match x, y with
  | .ok a, .ok b =>
    if h : a = b then .isTrue (by rw [h])
    else .isFalse (fun hc => h (Except.ok.inj hc))
  | .error e, .error f =>
    if h : e = f then .isTrue (by rw [h])
    else .isFalse (fun hc => h (Except.error.inj hc))
  | .ok _, .error _ => .isFalse (fun hc => Except.noConfusion hc)
  | .error _, .ok _ => .isFalse (fun hc => Except.noConfusion hc)

/-! ## Byte-level helpers: little-endian `u32`, XOR checksum -/

/-- Little-endian 4-byte encoding of `n` as a `u32` (the cast
`x as u32` in Rust truncates, hence the `% 2 ^ 32`). -/
def u32le (n : Nat) : List Nat :=
  [n % 256, n / 256 % 256, n / 256 ^ 2 % 256, n / 256 ^ 3 % 256]

/-- Little-endian decoding of the first four bytes of a list
(`u32::from_le_bytes`). -/
def leDec32 (l : List Nat) : Nat :=
  l.getD 0 0 % 256 + 256 * (l.getD 1 0 % 256) + 256 ^ 2 * (l.getD 2 0 % 256)
    + 256 ^ 3 * (l.getD 3 0 % 256)

/-- XOR-fold checksum over the payload bytes
(`json.iter().fold(0u32, |acc, &b| acc ^ (b as u32))`). -/
def xorFold (l : List Nat) : Nat :=
  l.foldl (fun acc b => acc ^^^ b) 0

/-! ## Slot identifiers (`src/storage/slab/slot.rs`) -/

/-- `SlotId { size_class: u16, offset: u64 }`. -/
structure SlotId where
  size_class : Nat
  offset : Nat
deriving DecidableEq, Repr

namespace SlotId

/-- `SlotId::new`. -/
def new (size_class offset : Nat) : SlotId := ⟨size_class, offset⟩

/-- `SlotId::file_index` (the `u16` class index widened to `usize`). -/
def file_index (s : SlotId) : Nat := s.size_class

end SlotId

/-! ## Size classes (`src/storage/slab/size_class.rs`)

The Rust code keeps the free offsets in a `BinaryHeap<Reverse<u64>>`,
i.e. a min-heap. The model keeps the multiset of free offsets as a plain
list; `popMin` extracts the minimum, exactly what `free_slots.pop()` on
the min-heap returns. -/

/-- Minimum of a list of naturals, `none` on the empty list. -/
def listMin : List Nat → Option Nat
  | [] => none
  | x :: xs =>
    match listMin xs with
    | none => some x
    | some m => some (min x m)

/-- Pop the minimum element (one occurrence) from the multiset of free
offsets; models `BinaryHeap<Reverse<u64>>::pop`. -/
def popMin (l : List Nat) : Option (Nat × List Nat) :=
  match listMin l with
  | none => none
  | some m => some (m, l.erase m)

/-- `SizeClass { slot_size, index, free_slots, next_offset }`. -/
structure SizeClass where
  slot_size : Nat
  index : Nat
  free_slots : List Nat
  next_offset : Nat
deriving DecidableEq, Repr, Inhabited

namespace SizeClass

/-- `SizeClass::new`. -/
def new (index slot_size : Nat) : SizeClass :=
  { slot_size := slot_size, index := index, free_slots := [], next_offset := 0 }

/-- `SizeClass::allocate`: reuse the smallest free offset if any,
otherwise hand out `next_offset` and advance it by `slot_size`. -/
def alloc (sc : SizeClass) : Nat × SizeClass :=
  match popMin sc.free_slots with
  | some (off, rest) => (off, { sc with free_slots := rest })
  | none =>
    (sc.next_offset, { sc with next_offset := sc.next_offset + sc.slot_size })

/-- `SizeClass::free`: push the offset onto the free heap. -/
def pushFree (sc : SizeClass) (offset : Nat) : SizeClass :=
  { sc with free_slots := offset :: sc.free_slots }

/-- `SizeClass::free_count`. -/
def free_count (sc : SizeClass) : Nat := sc.free_slots.length

/-- `SizeClass::can_fit`: `size <= self.slot_size`. -/
def can_fit (sc : SizeClass) (size : Nat) : Bool := size ≤ sc.slot_size

end SizeClass

/-! ## Byte-list files

One slot file per size class. `writeAt` models seek + `write_all`
(padding with zeros past the end of the file, as the OS does);
`readAt` models seek + `read_exact` (failing when the file is too short). -/

/-- Write `data` into `f` at byte offset `o`, zero-padding if `o` is past
the end of the file. -/
def writeAt (f : List Nat) (o : Nat) (data : List Nat) : List Nat :=
  let g := f ++ List.replicate (o + data.length - f.length) 0
  g.take o ++ data ++ g.drop (o + data.length)

/-- Read exactly `n` bytes at offset `o`, `none` if the file is too short
(`read_exact` returning `UnexpectedEof`). -/
def readAt (f : List Nat) (o n : Nat) : Option (List Nat) :=
  if o + n ≤ f.length then some ((f.drop o).take n) else none

/-! ## Errors (`src/error.rs` / `crate::error::Error::Storage`)

The source builds `Error::Storage(String)` with `format!` messages; the
model keeps the error kind and the interpolated values but not the
rendered text. -/

/-- Storage-stack error kinds, one constructor per distinct `Error::Storage`
message in the modelled code paths. -/
inductive Err where
  /-- "Data size {} (+4 byte prefix = {}) exceeds maximum slab size" -/
  | sizeExceedsMax (size total : Nat)
  /-- "Invalid size class index: {}" -/
  | invalidSizeClassIndex (idx : Nat)
  /-- "Data size {} (+4 byte prefix = {}) exceeds slot size {}" -/
  | sizeExceedsSlot (size total slot_size : Nat)
  /-- "Read failed: {}" (short read in `SlabAllocator::read`) -/
  | readFailed
  /-- "Batch too short" -/
  | batchTooShort
  /-- "Incomplete batch: expected {} bytes, got {}" -/
  | incompleteBatch (expected got : Nat)
  /-- "Checksum mismatch" -/
  | checksumMismatch
  /-- "Failed to deserialize batch: {}" -/
  | deserializeBatchFailed
  /-- "Failed to read batch: {}" (`read_exact` hitting EOF mid-frame in
  `MetadataStore::recover`, propagated with `?`) -/
  | readBatchFailed
  /-- "Failed to decompress: {}" (zstd decode failure) -/
  | decompressFailed
deriving DecidableEq, Repr

/-! ## Slab allocator (`src/storage/slab/allocator.rs`)

`SlabAllocator` owns the size-class table and one slot file per class
(parallel vectors, as in the source). `base_path` and the `Arc<RwLock<_>>`
wrappers are elided. -/

/-- `SlabAllocator { size_classes, files }`. -/
structure SlabAllocator where
  size_classes : List SizeClass
  files : List (List Nat)
deriving DecidableEq, Repr

namespace SlabAllocator

/-- `SlabAllocator::new` for a given (already computed) list of class sizes:
fresh classes and empty slot files. In the source the sizes come from
`calculate_size_classes(min, max)` (an `f64`-based geometric table); the
claims quantify over the table, so it is a parameter here. -/
def new (sizes : List Nat) : SlabAllocator :=
  { size_classes := sizes.enum.map fun p => SizeClass.new p.1 p.2
    files := sizes.map fun _ => [] }

/-- `iter().position(...)` + the per-class `allocate`, fused: find the first
class that can fit `total` bytes, allocate from it, and rebuild the class
list. Returns `(class_index, offset, updated classes)`. -/
def allocAux : List SizeClass → Nat → Nat → Option (Nat × Nat × List SizeClass)
  | [], _, _ => none
  | sc :: rest, total, idx =>
    if sc.can_fit total then
      let r := sc.alloc
      some (idx, r.1, r.2 :: rest)
    else
      (allocAux rest total (idx + 1)).map fun r => (r.1, r.2.1, sc :: r.2.2)

/-- `SlabAllocator::allocate`: `total = size + 4` for the length prefix;
first-fit over the class table; error if no class fits. -/
def allocate (a : SlabAllocator) (size : Nat) : Except Err SlotId × SlabAllocator :=
  let total := size + 4
  match allocAux a.size_classes total 0 with
  | none => (.error (.sizeExceedsMax size total), a)
  | some (idx, offset, classes) =>
    (.ok (SlotId.new idx offset), { a with size_classes := classes })

/-- `SlabAllocator::free`: bounds-check the class index, then push the
offset onto that class's free heap. -/
def free (a : SlabAllocator) (slot : SlotId) : Except Err Unit × SlabAllocator :=
  if h : slot.file_index < a.size_classes.length then
    let sc := a.size_classes.get ⟨slot.file_index, h⟩
    (.ok (), { a with
      size_classes := a.size_classes.set slot.file_index (sc.pushFree slot.offset) })
  else
    (.error (.invalidSizeClassIndex slot.file_index), a)

/-- `SlabAllocator::write`: bounds- and size-check, then seek to
`slot.offset` and write `u32_le(len)` followed by the data. -/
def write (a : SlabAllocator) (slot : SlotId) (data : List Nat) :
    Except Err Unit × SlabAllocator :=
  if hf : slot.file_index < a.files.length then
    if hc : slot.file_index < a.size_classes.length then
      let sc := a.size_classes.get ⟨slot.file_index, hc⟩
      if data.length + 4 > sc.slot_size then
        (.error (.sizeExceedsSlot data.length (data.length + 4) sc.slot_size), a)
      else
        let f := a.files.get ⟨slot.file_index, hf⟩
        (.ok (), { a with
          files := a.files.set slot.file_index
            (writeAt f slot.offset (u32le data.length ++ data)) })
    else
      (.error (.invalidSizeClassIndex slot.file_index), a)
  else
    (.error (.invalidSizeClassIndex slot.file_index), a)

/-- `SlabAllocator::read`: bounds-check, read the 4-byte length prefix at
`slot.offset`, then exactly that many bytes. -/
def read (a : SlabAllocator) (slot : SlotId) : Except Err (List Nat) :=
  if hf : slot.file_index < a.files.length then
    let f := a.files.get ⟨slot.file_index, hf⟩
    match readAt f slot.offset 4 with
    | none => .error .readFailed
    | some lenBytes =>
      let len := leDec32 lenBytes
      match readAt f (slot.offset + 4) len with
      | none => .error .readFailed
      | some data => .ok data
  else
    .error (.invalidSizeClassIndex slot.file_index)

/-- Largest configured slot size (`max_slot_size`): the maximum of the
class table. -/
def maxSlotSize (a : SlabAllocator) : Nat :=
  a.size_classes.foldl (fun m sc => max m sc.slot_size) 0

end SlabAllocator

/-! ## Metadata batches (`src/storage/slab/metadata.rs`)

A batch is `{ sequence: u64, timestamp: u64, mappings: Vec<(Vec<u8>, SlotId)> }`.
On disk a batch is framed as `[u32_le(len) | payload | u32_le(checksum)]`
where the payload is the `serde_json` serialization of the batch and the
checksum is the XOR fold of the payload bytes.

`serde_json` is an external crate; its encoding is modelled by an
executable injective byte encoding (`jsonEnc*`) with a matching decoder
(`jsonDec*`), so that `from_slice (to_vec b) = Ok(b)` — the only property
of the codec the source relies on. -/

/-- Fixed-width little-endian encoding: `k` bytes of `n` (so `encLE 8 n`
stands for a `u64` field in the JSON payload). -/
def encLE : Nat → Nat → List Nat
  | 0, _ => []
  | k + 1, n => n % 256 :: encLE k (n / 256)

/-- Little-endian decoding of a fixed-width field. -/
def decLE (l : List Nat) : Nat :=
  l.foldr (fun b acc => b % 256 + 256 * acc) 0

/-- Read a fixed-width little-endian field off the front of a byte list. -/
def readLE (k : Nat) (l : List Nat) : Option (Nat × List Nat) :=
  if k ≤ l.length then some (decLE (l.take k), l.drop k) else none

/-- Take exactly `k` bytes off the front of a byte list. -/
def readBytes (k : Nat) (l : List Nat) : Option (List Nat × List Nat) :=
  if k ≤ l.length then some (l.take k, l.drop k) else none

/-- `MetadataBatch { sequence, timestamp, mappings }`. -/
structure MetadataBatch where
  sequence : Nat
  timestamp : Nat
  mappings : List (List Nat × SlotId)
deriving DecidableEq, Repr

namespace MetadataBatch

/-- `MetadataBatch::new` (the source reads the clock for the timestamp;
the model takes the clock value as the `now` argument). -/
def new (sequence now : Nat) (mappings : List (List Nat × SlotId)) : MetadataBatch :=
  { sequence := sequence, timestamp := now, mappings := mappings }

/-- Model of the `serde_json` encoding of one `(Vec<u8>, SlotId)` mapping. -/
def jsonEncMapping (m : List Nat × SlotId) : List Nat :=
  encLE 8 m.1.length ++ m.1 ++ encLE 8 m.2.size_class ++ encLE 8 m.2.offset

/-- Model of `serde_json::to_vec(&batch)`: an injective byte encoding of
the batch (sequence, timestamp, mapping count, then each mapping). -/
def jsonEnc (b : MetadataBatch) : List Nat :=
  encLE 8 b.sequence ++ encLE 8 b.timestamp ++ encLE 8 b.mappings.length
    ++ (b.mappings.map jsonEncMapping).flatten

/-- Decoder for `jsonEncMapping`. -/
def jsonDecMapping (l : List Nat) : Option ((List Nat × SlotId) × List Nat) := do
  let (klen, l) ← readLE 8 l
  let (key, l) ← readBytes klen l
  let (size_class, l) ← readLE 8 l
  let (offset, l) ← readLE 8 l
  some ((key, SlotId.new size_class offset), l)

/-- Decoder for a run of `count` mappings. -/
def jsonDecMappings : Nat → List Nat → Option (List (List Nat × SlotId) × List Nat)
  | 0, l => some ([], l)
  | k + 1, l => do
    let (m, l) ← jsonDecMapping l
    let (ms, l) ← jsonDecMappings k l
    some (m :: ms, l)

/-- Model of `serde_json::from_slice::<MetadataBatch>`: decode and require
the payload to be fully consumed. -/
def jsonDec (l : List Nat) : Option MetadataBatch := do
  let (sequence, l) ← readLE 8 l
  let (timestamp, l) ← readLE 8 l
  let (count, l) ← readLE 8 l
  let (mappings, l) ← jsonDecMappings count l
  if l = [] then some (new sequence timestamp mappings) else none

/-- The values of a batch fit the Rust field types (`u64` sequence and
timestamp, `u16`/`u64` slot fields, `u8` key bytes) and the payload fits
the `u32` length prefix of the frame. -/
def wf (b : MetadataBatch) : Prop :=
  b.sequence < 2 ^ 64 ∧ b.timestamp < 2 ^ 64 ∧ b.mappings.length < 2 ^ 64 ∧
    (∀ m ∈ b.mappings, m.1.length < 2 ^ 64 ∧ m.2.size_class < 2 ^ 64 ∧
      m.2.offset < 2 ^ 64 ∧ ∀ x ∈ m.1, x < 256) ∧
    (b.jsonEnc.length < 2 ^ 32)

instance (b : MetadataBatch) : Decidable b.wf := by
  unfold wf; infer_instance

/-- `MetadataBatch::to_bytes`:
`[u32_le(json.len()) | json | u32_le(xor_fold(json))]`. -/
def to_bytes (b : MetadataBatch) : List Nat :=
  let json := b.jsonEnc
  u32le json.length ++ json ++ u32le (xorFold json)

/-- `MetadataBatch::from_bytes`: length check, checksum check, then
deserialize. -/
def from_bytes (bytes : List Nat) : Except Err MetadataBatch :=
  if bytes.length < 8 then .error .batchTooShort
  else
    let len := leDec32 (bytes.take 4)
    if bytes.length < len + 8 then
      .error (.incompleteBatch (len + 8) bytes.length)
    else
      let json := (bytes.drop 4).take len
      let stored := leDec32 ((bytes.drop (4 + len)).take 4)
      let computed := xorFold json
      if stored ≠ computed then .error .checksumMismatch
      else
        match jsonDec json with
        | some b => .ok b
        | none => .error .deserializeBatchFailed

end MetadataBatch

/-! ## The in-memory index (`HashMap<Vec<u8>, SlotId>`)

Modelled as an association list with at most one entry per key (the
insert keeps the position of an existing key, as a map does; iteration
order of the Rust `HashMap` is unspecified, the model uses list
order). -/

/-- `HashMap<Vec<u8>, SlotId>`. -/
def Index : Type := List (List Nat × SlotId)

instance : DecidableEq Index := by unfold Index; infer_instance

namespace Index

/-- The empty map (`HashMap::new`). -/
def empty : Index := []

/-- `HashMap::insert` (replace the entry if the key is present, append
otherwise). -/
def insert : Index → List Nat → SlotId → Index
  | [], k, s => [(k, s)]
  | (k', s') :: rest, k, s =>
    if k' = k then (k, s) :: rest else (k', s') :: insert rest k s

/-- `HashMap::get` (`.copied()`). -/
def find : Index → List Nat → Option SlotId
  | [], _ => none
  | (k', s') :: rest, k => if k' = k then some s' else find rest k

/-- `HashMap::remove` (drop the entry for the key). -/
def erase (i : Index) (k : List Nat) : Index :=
  i.filter fun p => p.1 ≠ k

/-- `HashMap::len`. -/
def size (i : Index) : Nat := i.length

/-- `HashMap::keys().cloned().collect()`. -/
def keyList (i : Index) : List (List Nat) := i.map Prod.fst

/-- Apply a batch's mappings in order (`for (key, slot) in mappings {
index.insert(key, slot) }`). -/
def applyMappings (ms : List (List Nat × SlotId)) (i : Index) : Index :=
  ms.foldl (fun acc m => insert acc m.1 m.2) i

end Index

/-! ## Metadata store (`src/storage/slab/metadata.rs`)

The store owns the log file and the in-memory index. `log = none`
models a missing `metadata.log` (fresh directory); `write_batch` creates
the file on first append (`OpenOptions::create(true).append(true)`). -/

/-- `MetadataStore { log_path ↦ log contents, index, next_sequence }`. -/
structure MetadataStore where
  log : Option (List Nat)
  index : Index
  next_sequence : Nat
deriving DecidableEq

/-- The body of the `loop` in `MetadataStore::recover`: read a 4-byte
length prefix (breaking on a short read), read the rest of the frame
(propagating the error when the declared length exceeds the remaining
bytes — the `?` on `read_exact`), then `MetadataBatch::from_bytes`
(breaking the loop on its error). Returns the rebuilt index and the
maximum sequence number seen. -/
def recoverLoop (bytes : List Nat) (index : Index) (maxSeq : Nat) :
    Except Err (Index × Nat) :=
  if _h4 : bytes.length < 4 then .ok (index, maxSeq)
  else
    let len := leDec32 (bytes.take 4)
    if bytes.length < len + 8 then .error .readBatchFailed
    else
      match MetadataBatch.from_bytes (bytes.take (len + 8)) with
      | .ok b =>
        recoverLoop (bytes.drop (len + 8)) (Index.applyMappings b.mappings index)
          (max maxSeq b.sequence)
      | .error _ => .ok (index, maxSeq)
termination_by bytes.length
decreasing_by simp only [List.length_drop]; omega

namespace MetadataStore

/-- `MetadataStore::new` + `recover`: a missing log file leaves the fresh
state (`next_sequence = 0`); otherwise replay the log and set
`next_sequence = max_sequence + 1`. A recovery error propagates and the
store fails to open. -/
def openStore (logFile : Option (List Nat)) : Except Err MetadataStore :=
  match logFile with
  | none => .ok { log := none, index := Index.empty, next_sequence := 0 }
  | some bytes =>
    match recoverLoop bytes Index.empty 0 with
    | .error e => .error e
    | .ok (index, maxSeq) =>
      .ok { log := some bytes, index := index, next_sequence := maxSeq + 1 }

/-- `MetadataStore::write_batch`: empty batches are a no-op; otherwise
take the next sequence number, frame the batch, append + fsync, then
apply the mappings to the in-memory index. (The Rayon parallel collect
for batches of more than 100 entries preserves order and is the
identity here.) -/
def write_batch (s : MetadataStore) (now : Nat)
    (mappings : List (List Nat × SlotId)) : MetadataStore :=
  if mappings.isEmpty then s
  else
    let sequence := s.next_sequence
    let batch := MetadataBatch.new sequence now mappings
    let bytes := batch.to_bytes
    { log := some (s.log.getD [] ++ bytes)
      index := Index.applyMappings mappings s.index
      next_sequence := sequence + 1 }

/-- `MetadataStore::get`. -/
def get (s : MetadataStore) (k : List Nat) : Option SlotId :=
  Index.find s.index k

/-- `MetadataStore::remove`: in-memory erase only (non-durable, as the
source warns). -/
def remove (s : MetadataStore) (k : List Nat) : MetadataStore :=
  { s with index := Index.erase s.index k }

/-- `MetadataStore::keys`. -/
def keys (s : MetadataStore) : List (List Nat) := Index.keyList s.index

/-- `MetadataStore::len`. -/
def size (s : MetadataStore) : Nat := Index.size s.index

/-- `MetadataStore::compact`: snapshot the index, write it as a single
batch with sequence 0 to the temp file, fsync, rename over the log
(modelled as the atomic replacement of the log contents), and reset the
sequence counter to 1. -/
def compact (s : MetadataStore) (now : Nat) : MetadataStore :=
  let mappings := s.index
  let batch := MetadataBatch.new 0 now mappings
  { log := some batch.to_bytes, index := s.index, next_sequence := 1 }

end MetadataStore

/-! ## Compression codec (`src/storage/slab/compression.rs`)

`CompressionAlgorithm::None` is the identity; `Zstd` calls into the
external `zstd` crate, modelled as an abstract codec parameter (an
encoder and a fallible decoder). -/

/-- `CompressionAlgorithm { None, Zstd }`. -/
inductive CompressionAlgorithm where
  | none
  | zstd
deriving DecidableEq, Repr

/-- Abstract model of the external `zstd` crate: `Encoder::new(..., 3)` +
`write_all` + `finish`, and `decode_all`. -/
structure ZstdCodec where
  encode : List Nat → List Nat
  decode : List Nat → Option (List Nat)

/-- The trivial codec instance used by witnesses (any roundtripping pair
is an admissible model of the crate). -/
def idZstd : ZstdCodec := { encode := fun d => d, decode := fun d => some d }

/-- `compress(data, algorithm)`. -/
def compress (z : ZstdCodec) (data : List Nat) :
    CompressionAlgorithm → List Nat
  | .none => data
  | .zstd => z.encode data

/-- `decompress(data, algorithm)`. -/
def decompress (z : ZstdCodec) (data : List Nat) :
    CompressionAlgorithm → Except Err (List Nat)
  | .none => .ok data
  | .zstd =>
    match z.decode data with
    | some d => .ok d
    | none => .error .decompressFailed

/-! ## LRU value cache (`src/storage/slab/cache.rs`)

`LruCache<Vec<u8>, CacheEntry>` with entries kept most-recently-used
first. The hit/miss counters only feed `stats()` and are not modelled. -/

/-- A cache entry `(slot_id, data)` keyed by the user key. -/
structure SlabCache where
  capacity : Nat
  entries : List (List Nat × SlotId × List Nat)
deriving DecidableEq

namespace SlabCache

/-- `SlabCache::new` (`NonZeroUsize::new(capacity).unwrap_or(1000)`). -/
def new (capacity : Nat) : SlabCache :=
  { capacity := if capacity = 0 then 1000 else capacity, entries := [] }

/-- `LruCache::get`: on a hit, promote the entry to most-recently-used and
return `(slot_id, data)`. -/
def get (c : SlabCache) (k : List Nat) :
    Option (SlotId × List Nat) × SlabCache :=
  match c.entries.find? fun e => e.1 = k with
  | some e =>
    (some e.2, { c with entries := e :: c.entries.filter fun e' => e'.1 ≠ k })
  | none => (none, c)

/-- `LruCache::put`: insert (or refresh) at MRU, evicting the LRU entry
when over capacity. -/
def put (c : SlabCache) (k : List Nat) (slot : SlotId) (data : List Nat) :
    SlabCache :=
  let entries := (k, slot, data) :: c.entries.filter fun e => e.1 ≠ k
  { c with entries := if entries.length > c.capacity then entries.dropLast
      else entries }

/-- `LruCache::pop` via `SlabCache::remove`. -/
def remove (c : SlabCache) (k : List Nat) : SlabCache :=
  { c with entries := c.entries.filter fun e => e.1 ≠ k }

end SlabCache

/-! ## Composed storage engine (`src/storage/slab/storage.rs`)

`SlabStorage` composes the allocator, the metadata store, the cache and
the compression setting. `set` additionally records the order of its
side-effecting steps as a trace of `Event`s, used by the temporal claim
about when the old slot is freed. -/

/-- One side-effecting step of `SlabStorage::set`, in program order. -/
inductive Event where
  /-- `self.allocator.free(old_slot)` on the overwritten key's old slot. -/
  | freeSlot (slot : SlotId)
  /-- `self.allocator.allocate(compressed.len())`. -/
  | allocSlot (slot : SlotId)
  /-- `self.allocator.write(slot_id, &compressed)`. -/
  | writeSlot (slot : SlotId)
  /-- `self.metadata.write_batch(...)` — append + fsync of the batch with
  the given sequence number; the batch is durable from this point. -/
  | appendBatch (sequence : Nat)
  /-- `self.cache.remove(key)`. -/
  | cacheRemove
deriving DecidableEq, Repr

/-- `SlabStorage { allocator, metadata, cache, compression }`. -/
structure SlabStorage where
  allocator : SlabAllocator
  metadata : MetadataStore
  cache : SlabCache
  compression : CompressionAlgorithm
deriving DecidableEq

namespace SlabStorage

/-- `SlabStorage::with_options` opened on an empty directory: fresh
allocator files, no metadata log (`recover` finds nothing), empty cache.
The source derives the class-size table from `calculate_size_classes
(min, max)`; the table is a parameter here. -/
def openFresh (sizes : List Nat) (compression : CompressionAlgorithm)
    (cacheCapacity : Nat) : SlabStorage :=
  { allocator := SlabAllocator.new sizes
    metadata := { log := none, index := Index.empty, next_sequence := 0 }
    cache := SlabCache.new cacheCapacity
    compression := compression }

/-- `SlabStorage::get`: cache lookup, then metadata lookup, allocator
read, decompress, fill the cache. -/
def get (z : ZstdCodec) (s : SlabStorage) (k : List Nat) :
    Except Err (Option (List Nat)) × SlabStorage :=
  let hit := s.cache.get k
  match hit.1 with
  | some (_slot, data) => (.ok (some data), { s with cache := hit.2 })
  | none =>
    match s.metadata.get k with
    | none => (.ok none, { s with cache := hit.2 })
    | some slot =>
      match s.allocator.read slot with
      | .error e => (.error e, { s with cache := hit.2 })
      | .ok compressed =>
        match decompress z compressed s.compression with
        | .error e => (.error e, { s with cache := hit.2 })
        | .ok data =>
          (.ok (some data), { s with cache := hit.2.put k slot data })

/-- The tail of `SlabStorage::set` after the optional free of the old
slot: allocate, write, append the metadata batch, invalidate the cache.
`ev` carries the events accumulated so far. -/
def setFinish (now : Nat) (s : SlabStorage) (k compressed : List Nat)
    (ev : List Event) : Except Err Unit × SlabStorage × List Event :=
  match s.allocator.allocate compressed.length with
  | (.error e, a₂) => (.error e, { s with allocator := a₂ }, ev)
  | (.ok slot, a₂) =>
    match a₂.write slot compressed with
    | (.error e, a₃) => (.error e, { s with allocator := a₃ },
        ev ++ [.allocSlot slot])
    | (.ok _, a₃) =>
      let sequence := s.metadata.next_sequence
      let md := s.metadata.write_batch now [(k, slot)]
      (.ok (),
        { s with
            allocator := a₃
            metadata := md
            cache := s.cache.remove k },
        ev ++ [.allocSlot slot, .writeSlot slot, .appendBatch sequence,
          .cacheRemove])

/-- `SlabStorage::set` with its event trace: compress, free the old slot
if the key is already mapped, then `setFinish`. -/
def setCore (z : ZstdCodec) (now : Nat) (s : SlabStorage) (k v : List Nat) :
    Except Err Unit × SlabStorage × List Event :=
  let compressed := compress z v s.compression
  match s.metadata.get k with
  | some old =>
    match s.allocator.free old with
    | (.error e, a₁) => (.error e, { s with allocator := a₁ }, [])
    | (.ok _, a₁) =>
      setFinish now { s with allocator := a₁ } k compressed [.freeSlot old]
  | none => setFinish now s k compressed []

/-- `SlabStorage::set` (result and state). -/
def set (z : ZstdCodec) (now : Nat) (s : SlabStorage) (k v : List Nat) :
    Except Err Unit × SlabStorage :=
  ((setCore z now s k v).1, (setCore z now s k v).2.1)

/-- The event trace of one `SlabStorage::set` call. -/
def setEvents (z : ZstdCodec) (now : Nat) (s : SlabStorage) (k v : List Nat) :
    List Event :=
  (setCore z now s k v).2.2

/-- `SlabStorage::delete`: missing key returns `false` untouched;
otherwise free the slot, remove from metadata (in-memory), invalidate
the cache. -/
def delete (s : SlabStorage) (k : List Nat) : Except Err Bool × SlabStorage :=
  match s.metadata.get k with
  | none => (.ok false, s)
  | some slot =>
    match s.allocator.free slot with
    | (.error e, a₁) => (.error e, { s with allocator := a₁ })
    | (.ok _, a₁) =>
      (.ok true,
        { s with
            allocator := a₁
            metadata := s.metadata.remove k
            cache := s.cache.remove k })

/-- `SlabStorage::keys`. -/
def keyList (s : SlabStorage) : List (List Nat) := s.metadata.keys

/-- `SlabStorage::contains_key`. -/
def contains_key (s : SlabStorage) (k : List Nat) : Bool :=
  (s.metadata.get k).isSome

/-- `SlabStorage::len`. -/
def size (s : SlabStorage) : Nat := s.metadata.size

/-- `SlabStorage::compact_metadata`. -/
def compact_metadata (s : SlabStorage) (now : Nat) : SlabStorage :=
  { s with metadata := s.metadata.compact now }

end SlabStorage

/-! ## Documents (`src/reql/datum.rs`)

`Datum` is the six-kind JSON-compatible document type. Rust's
`Number(f64)` is modelled as a rational (no claim exercises float
arithmetic or float edge cases); `String` is carried as its UTF-8 bytes;
`Object(HashMap<String, Datum>)` as an association list in insertion
order. -/

/-- `Datum { Null, Boolean, Number, String, Array, Object }`. -/
inductive Datum where
  | null
  | boolean (b : Bool)
  | number (n : Rat)
  | string (s : List Nat)
  | array (xs : List Datum)
  | object (fields : List (List Nat × Datum))

/-- UTF-8 bytes of an ASCII string literal (key and name constants). -/
def ascii (s : String) : List Nat := s.data.map Char.toNat

/-- Decimal ASCII digits of a natural number. -/
def natDigits (n : Nat) : List Nat := (Nat.toDigits 10 n).map Char.toNat

mutual

/-- Model of `serde_json::to_vec(&datum)` (the `#[serde(untagged)]` JSON
rendering). Strings are emitted without escaping (the namespace layer
only serializes names from the restricted grammar) and numbers as
`numerator/denominator` decimal text — an injective stand-in for the
external crate's float rendering, which no claim depends on. -/
def datumToBytes : Datum → List Nat
  | .null => ascii "null"
  | .boolean true => ascii "true"
  | .boolean false => ascii "false"
  | .number n =>
    (if n.num < 0 then [45] else []) ++ natDigits n.num.natAbs
      ++ (if n.den = 1 then [] else [47] ++ natDigits n.den)
  | .string s => [34] ++ s ++ [34]
  | .array xs => [91] ++ datumItemsBytes xs ++ [93]
  | .object fs => [123] ++ datumFieldsBytes fs ++ [125]

/-- Comma-joined rendering of array elements. -/
def datumItemsBytes : List Datum → List Nat
  | [] => []
  | [x] => datumToBytes x
  | x :: y :: xs => datumToBytes x ++ [44] ++ datumItemsBytes (y :: xs)

/-- Comma-joined rendering of `"key":value` object fields. -/
def datumFieldsBytes : List (List Nat × Datum) → List Nat
  | [] => []
  | [f] => [34] ++ f.1 ++ [34, 58] ++ datumToBytes f.2
  | f :: g :: fs =>
    [34] ++ f.1 ++ [34, 58] ++ datumToBytes f.2 ++ [44]
      ++ datumFieldsBytes (g :: fs)

end

/-! ## Namespace layer (`src/storage/slab/engine.rs`)

`SlabStorageEngine` wraps `SlabStorage`; database and table metadata
live under reserved key prefixes. Database and table names are carried
as their UTF-8 bytes. -/

/-- Drop a fixed byte sequence off the front of a list, `none` if it is
not there (`starts_with` + the strip of the matched head). -/
def dropHead : List Nat → List Nat → Option (List Nat)
  | [], l => some l
  | _ :: _, [] => none
  | p :: ps, x :: xs => if p = x then dropHead ps xs else none

namespace SlabStorageEngine

/-- `format!("__meta__:databases:{}", name)`. -/
def dbKey (name : List Nat) : List Nat :=
  ascii "__meta__:databases:" ++ name

/-- `format!("__meta__:tables:{}.{}", db, table)` (46 is the dot). -/
def tableKey (db table : List Nat) : List Nat :=
  ascii "__meta__:tables:" ++ db ++ [46] ++ table

/-- `format!("__meta__:tables:{}.", db)` — the prefix used by
`list_tables_in_db`. -/
def tableKeyHead (db : List Nat) : List Nat :=
  ascii "__meta__:tables:" ++ db ++ [46]

/-- `SlabStorageEngine::create_database`: serialize
`Datum::Object({"name": name})` and `set` it under the database key.
There is no existence check. -/
def create_database (z : ZstdCodec) (now : Nat) (s : SlabStorage)
    (name : List Nat) : Except Err Unit × SlabStorage :=
  let value := Datum.object [(ascii "name", Datum.string name)]
  SlabStorage.set z now s (dbKey name) (datumToBytes value)

/-- `SlabStorageEngine::list_databases`: keys under the database prefix,
stripped. -/
def list_databases (s : SlabStorage) : List (List Nat) :=
  s.keyList.filterMap (dropHead (ascii "__meta__:databases:"))

/-- `SlabStorageEngine::list_tables_in_db`. -/
def list_tables_in_db (s : SlabStorage) (db : List Nat) : List (List Nat) :=
  s.keyList.filterMap (dropHead (tableKeyHead db))

/-- `SlabStorageEngine::drop_table`: delete the table metadata key; the
documents of the table are not deleted (the source logs a warning). The
trait-level `delete` discards the `bool` of the inner delete. -/
def drop_table (s : SlabStorage) (db table : List Nat) :
    Except Err Unit × SlabStorage :=
  match SlabStorage.delete s (tableKey db table) with
  | (.error e, s₁) => (.error e, s₁)
  | (.ok _, s₁) => (.ok (), s₁)

/-- The `for table in tables { self.drop_table(...)? }` loop of
`drop_database`. -/
def dropTables (db : List Nat) : SlabStorage → List (List Nat) →
    Except Err Unit × SlabStorage
  | s, [] => (.ok (), s)
  | s, t :: ts =>
    match drop_table s db t with
    | (.error e, s₁) => (.error e, s₁)
    | (.ok _, s₁) => dropTables db s₁ ts

/-- `SlabStorageEngine::drop_database`: delete the database metadata key
(ignoring whether it existed), then drop every table listed under the
database. -/
def drop_database (s : SlabStorage) (name : List Nat) :
    Except Err Unit × SlabStorage :=
  match SlabStorage.delete s (dbKey name) with
  | (.error e, s₁) => (.error e, s₁)
  | (.ok _, s₁) =>
    let tables := list_tables_in_db s₁ name
    dropTables name s₁ tables

end SlabStorageEngine

/-! ## ReQL terms (`src/reql/terms.rs`, `src/reql/ast.rs`) -/

/-- `TermType` — the full operator enum (Cap'n Proto ordinals omitted;
only the tags matter to the modelled handlers). -/
inductive TermType where
  | datum | makeArray | makeObj
  | var | javascript
  | db | table | get | getAll
  | eq | ne | lt | le | gt | ge
  | not
  | add | sub | mul | div | mod
  | append | prepend | difference
  | setInsert | setIntersection | setUnion | setDifference
  | slice | skip | limit | contains
  | getField | keys | values | hasFields | pluck | without | merge
  | between
  | reduce | map | filter | concatMap | orderBy | distinct | count | nth
  | insertAt | deleteAt | changeAt | spliceAt
  | coerceTo | typeOf
  | update | delete | replace | insert
  | dbCreate | dbDrop | dbList
  | tableCreate | tableDrop | tableList
  | branch | or | and | forEach | func
  | group | sum | avg | min | max
deriving DecidableEq, Repr

/-- `Term { term_type, args, optargs, datum }` (a recursive tree, so an
inductive rather than a structure). -/
inductive Term where
  | mk (term_type : TermType) (args : List Term)
      (optargs : List (List Nat × Term)) (datum : Option Datum)

/-- Projection: `term.term_type`. -/
def Term.term_type : Term → TermType
  | .mk t _ _ _ => t

/-- Projection: `term.args`. -/
def Term.args : Term → List Term
  | .mk _ a _ _ => a

/-- Projection: `term.datum`. -/
def Term.datumVal : Term → Option Datum
  | .mk _ _ _ d => d

/-- `ExecutionContext { variables, current_db }` with the default
database `"test"`. -/
structure ExecutionContext where
  var_bindings : List (Nat × Datum)
  current_db : Option (List Nat)

/-- `ExecutionContext::new` (`variables` in the source; renamed because
`variables` is a reserved word in Lean). -/
def ExecutionContext.new : ExecutionContext :=
  { var_bindings := [], current_db := some (ascii "test") }

/-! ## Query executor handler stubs (`src/query/executor.rs`)

The handlers below are the bodies the dispatch `match term.term_type`
routes the corresponding operators to. Each is marked `TODO` in the
source and returns a fixed successful value while ignoring its term and
context; they are translated verbatim. -/

namespace QueryExecutor

/-- `QueryExecutor::insert` — TODO stub: `Ok({"inserted": 1.0, "errors": 0.0})`. -/
def insert (_term : Term) (_ctx : ExecutionContext) : Except Err Datum :=
  .ok (Datum.object [(ascii "inserted", .number 1), (ascii "errors", .number 0)])

/-- `QueryExecutor::update` — TODO stub:
`Ok({"replaced": 0.0, "unchanged": 0.0, "errors": 0.0})`. -/
def update (_term : Term) (_ctx : ExecutionContext) : Except Err Datum :=
  .ok (Datum.object [(ascii "replaced", .number 0), (ascii "unchanged", .number 0),
    (ascii "errors", .number 0)])

/-- `QueryExecutor::replace` — TODO stub: `Ok({"replaced": 0.0, "errors": 0.0})`. -/
def replace (_term : Term) (_ctx : ExecutionContext) : Except Err Datum :=
  .ok (Datum.object [(ascii "replaced", .number 0), (ascii "errors", .number 0)])

/-- `QueryExecutor::delete` — TODO stub: `Ok({"deleted": 0.0, "errors": 0.0})`. -/
def delete (_term : Term) (_ctx : ExecutionContext) : Except Err Datum :=
  .ok (Datum.object [(ascii "deleted", .number 0), (ascii "errors", .number 0)])

/-- `QueryExecutor::get_field` — TODO stub: `Ok(Null)`. -/
def get_field (_term : Term) (_ctx : ExecutionContext) : Except Err Datum :=
  .ok Datum.null

/-- `QueryExecutor::has_fields` — TODO stub: `Ok(Boolean(false))`. -/
def has_fields (_term : Term) (_ctx : ExecutionContext) : Except Err Datum :=
  .ok (Datum.boolean false)

/-- `QueryExecutor::keys` — TODO stub: `Ok(Array([]))`. -/
def keys (_term : Term) (_ctx : ExecutionContext) : Except Err Datum :=
  .ok (Datum.array [])

/-- `QueryExecutor::values` — TODO stub: `Ok(Array([]))`. -/
def values (_term : Term) (_ctx : ExecutionContext) : Except Err Datum :=
  .ok (Datum.array [])

/-- `QueryExecutor::append` — TODO stub: `Ok(Array([]))`. -/
def append (_term : Term) (_ctx : ExecutionContext) : Except Err Datum :=
  .ok (Datum.array [])

/-- `QueryExecutor::prepend` — TODO stub: `Ok(Array([]))`. -/
def prepend (_term : Term) (_ctx : ExecutionContext) : Except Err Datum :=
  .ok (Datum.array [])

/-- `QueryExecutor::contains` — TODO stub: `Ok(Boolean(false))`. -/
def contains (_term : Term) (_ctx : ExecutionContext) : Except Err Datum :=
  .ok (Datum.boolean false)

/-- `QueryExecutor::map` — TODO stub: `Ok(Array([]))`. -/
def map (_term : Term) (_ctx : ExecutionContext) : Except Err Datum :=
  .ok (Datum.array [])

/-- `QueryExecutor::concat_map` — TODO stub: `Ok(Array([]))`. -/
def concat_map (_term : Term) (_ctx : ExecutionContext) : Except Err Datum :=
  .ok (Datum.array [])

/-- `QueryExecutor::order_by` — TODO stub: `Ok(Array([]))`. -/
def order_by (_term : Term) (_ctx : ExecutionContext) : Except Err Datum :=
  .ok (Datum.array [])

/-- `QueryExecutor::group` — TODO stub: `Ok(Array([]))`. -/
def group (_term : Term) (_ctx : ExecutionContext) : Except Err Datum :=
  .ok (Datum.array [])

/-- `QueryExecutor::reduce` — TODO stub: `Ok(Null)`. -/
def reduce (_term : Term) (_ctx : ExecutionContext) : Except Err Datum :=
  .ok Datum.null

/-- `QueryExecutor::merge` — TODO stub: `Ok(Object({}))`. -/
def merge (_term : Term) (_ctx : ExecutionContext) : Except Err Datum :=
  .ok (Datum.object [])

/-- `QueryExecutor::coerce_to` — TODO stub: `Ok(Null)`. -/
def coerce_to (_term : Term) (_ctx : ExecutionContext) : Except Err Datum :=
  .ok Datum.null

end QueryExecutor

/-! ## Wire protocol handshake (`src/network/protocol.rs`)

The server side of the handshake, over a byte-list model of the stream:
`accept` consumes bytes from the input and returns the negotiated
`Handshake`, the unread remainder of the input, and the bytes written
back to the client. -/

/-- `VERSION_V0_1 = 0x3f61ba36`. -/
def VERSION_V0_1 : Nat := 0x3f61ba36
/-- `VERSION_V0_2 = 0x723081e1`. -/
def VERSION_V0_2 : Nat := 0x723081e1
/-- `VERSION_V0_3 = 0x5f75e83e`. -/
def VERSION_V0_3 : Nat := 0x5f75e83e
/-- `VERSION_V0_4 = 0x400c2d20`. -/
def VERSION_V0_4 : Nat := 0x400c2d20
/-- `VERSION_V1_0 = 0x34c2bdc3`. -/
def VERSION_V1_0 : Nat := 0x34c2bdc3
/-- `PROTOCOL_PROTOBUF = 0x271ffc41`. -/
def PROTOCOL_PROTOBUF : Nat := 0x271ffc41
/-- `PROTOCOL_JSON = 0x7e6970c7`. -/
def PROTOCOL_JSON : Nat := 0x7e6970c7

/-- Handshake error kinds (the `anyhow!` failures of `Handshake::accept`
plus EOF on a short stream). -/
inductive HsErr where
  /-- short read on the stream -/
  | eof
  /-- "Unsupported protocol version: 0x{:x}" -/
  | unsupportedVersion (magic : Nat)
  /-- "Auth key too long: {} bytes" -/
  | authKeyTooLong (len : Nat)
  /-- `String::from_utf8` failure on the auth key -/
  | invalidUtf8
  /-- "Unknown protocol type: 0x{:x}" -/
  | unknownProtocol (magic : Nat)
  /-- "PROTOBUF protocol is no longer supported" -/
  | protobufUnsupported
deriving DecidableEq, Repr

/-- `ProtocolVersion`. -/
inductive ProtocolVersion where
  | v0_1 | v0_2 | v0_3 | v0_4 | v1_0
deriving DecidableEq, Repr

namespace ProtocolVersion

/-- `ProtocolVersion::from_magic`. -/
def from_magic (magic : Nat) : Except HsErr ProtocolVersion :=
  if magic = VERSION_V0_1 then .ok .v0_1
  else if magic = VERSION_V0_2 then .ok .v0_2
  else if magic = VERSION_V0_3 then .ok .v0_3
  else if magic = VERSION_V0_4 then .ok .v0_4
  else if magic = VERSION_V1_0 then .ok .v1_0
  else .error (.unsupportedVersion magic)

/-- `ProtocolVersion::supports_json`. -/
def supports_json (v : ProtocolVersion) : Bool :=
  match v with
  | .v0_3 | .v0_4 | .v1_0 => true
  | _ => false

end ProtocolVersion

/-- `WireProtocol`. -/
inductive WireProtocol where
  | json | protobuf
deriving DecidableEq, Repr

/-- `WireProtocol::from_magic`. -/
def WireProtocol.from_magic (magic : Nat) : Except HsErr WireProtocol :=
  if magic = PROTOCOL_JSON then .ok .json
  else if magic = PROTOCOL_PROTOBUF then .ok .protobuf
  else .error (.unknownProtocol magic)

/-- `Handshake { version, protocol, auth_key }`. -/
structure Handshake where
  version : ProtocolVersion
  protocol : WireProtocol
  auth_key : Option (List Nat)
deriving DecidableEq, Repr

/-- `read_u32_le` on the byte stream. -/
def readU32 (input : List Nat) : Option (Nat × List Nat) :=
  match input with
  | a :: b :: c :: d :: rest => some (leDec32 [a, b, c, d], rest)
  | _ => none

/-- `String::from_utf8` validity (standard UTF-8 ranges, surrogates and
values above U+10FFFF excluded). -/
def validUtf8 : List Nat → Bool
  | [] => true
  | b :: rest =>
    if b < 0x80 then validUtf8 rest
    else if 0xC2 ≤ b ∧ b ≤ 0xDF then
      match rest with
      | c1 :: rest' =>
        if 0x80 ≤ c1 ∧ c1 ≤ 0xBF then validUtf8 rest' else false
      | [] => false
    else if 0xE0 ≤ b ∧ b ≤ 0xEF then
      match rest with
      | c1 :: c2 :: rest' =>
        let lo1 := if b = 0xE0 then 0xA0 else 0x80
        let hi1 := if b = 0xED then 0x9F else 0xBF
        if (lo1 ≤ c1 ∧ c1 ≤ hi1) ∧ (0x80 ≤ c2 ∧ c2 ≤ 0xBF) then
          validUtf8 rest'
        else false
      | _ => false
    else if 0xF0 ≤ b ∧ b ≤ 0xF4 then
      match rest with
      | c1 :: c2 :: c3 :: rest' =>
        let lo1 := if b = 0xF0 then 0x90 else 0x80
        let hi1 := if b = 0xF4 then 0x8F else 0xBF
        if (lo1 ≤ c1 ∧ c1 ≤ hi1) ∧ (0x80 ≤ c2 ∧ c2 ≤ 0xBF)
            ∧ (0x80 ≤ c3 ∧ c3 ≤ 0xBF) then
          validUtf8 rest'
        else false
      | _ => false
    else false

/-- The V1_0 JSON success response
(`{"max_protocol_version":0,"min_protocol_version":0,"server_version":
"<x.y.z>","success":true}` — `serde_json`'s alphabetical key order;
`serverVersion` stands for `env!("CARGO_PKG_VERSION")`). 123/125 are the
brace bytes. -/
def v1SuccessResponse (serverVersion : List Nat) : List Nat :=
  [123] ++ ascii "\"max_protocol_version\":0,\"min_protocol_version\":0,"
    ++ ascii "\"server_version\":\"" ++ serverVersion ++ ascii "\",\"success\":true"
    ++ [125]

/-- `if key_bytes.last() == Some(&0) { key_bytes.pop(); }` — strip one
trailing NUL from the auth key. -/
def stripNul (keyBytes : List Nat) : List Nat :=
  if keyBytes.getLast? = some 0 then keyBytes.dropLast else keyBytes

/-- Step 2 of `Handshake::accept`: read the auth key (length-prefixed,
at most 4096 bytes, optional trailing NUL stripped, must be UTF-8) for
every version except V0_1. Returns the key and the rest of the input. -/
def readAuthKey (version : ProtocolVersion) (input : List Nat) :
    Except HsErr (Option (List Nat) × List Nat) :=
  if version ≠ .v0_1 then
    match readU32 input with
    | none => .error .eof
    | some (keyLen, r2) =>
      if keyLen > 4096 then .error (.authKeyTooLong keyLen)
      else
        match readBytes keyLen r2 with
        | none => .error .eof
        | some (keyBytes, r3) =>
          if validUtf8 (stripNul keyBytes) then .ok (some (stripNul keyBytes), r3)
          else .error .invalidUtf8
  else .ok (none, input)

/-- `Handshake::accept` (server side): read and validate the version
magic; read the auth key for V0_2+; for versions supporting JSON read
the protocol magic (accepting both JSON and PROTOBUF magics), otherwise
fail with "PROTOBUF protocol is no longer supported"; finally write the
success message followed by a NUL. Returns the handshake, the unread
input, and the written bytes. -/
def Handshake.accept (serverVersion : List Nat) (input : List Nat) :
    Except HsErr (Handshake × List Nat × List Nat) :=
  match readU32 input with
  | none => .error .eof
  | some (versionMagic, r1) =>
    match ProtocolVersion.from_magic versionMagic with
    | .error e => .error e
    | .ok version =>
      match readAuthKey version r1 with
      | .error e => .error e
      | .ok (auth_key, r3) =>
        if version.supports_json then
          match readU32 r3 with
          | none => .error .eof
          | some (protocolMagic, r4) =>
            match WireProtocol.from_magic protocolMagic with
            | .error e => .error e
            | .ok protocol =>
              let successMsg :=
                if version = .v1_0 then v1SuccessResponse serverVersion
                else ascii "SUCCESS"
              .ok (⟨version, protocol, auth_key⟩, r4, successMsg ++ [0])
        else .error .protobufUnsupported

/-! ## Auxiliary definitions used by the statements of the theorems -/

/-- The byte contents of a metadata log holding the given batches in
order (each framed by `to_bytes`). -/
def logBytes (bs : List MetadataBatch) : List Nat :=
  (bs.map MetadataBatch.to_bytes).flatten

/-- Fold a batch list into an index, last write per key winning — the
durable state the log defines. -/
def logIndex (bs : List MetadataBatch) : Index :=
  bs.foldl (fun i b => Index.applyMappings b.mappings i) Index.empty

/-- Maximum sequence number over a batch list (0 when empty), as tracked
by the recovery loop. -/
def logMaxSeq (bs : List MetadataBatch) : Nat :=
  bs.foldl (fun m b => max m b.sequence) 0

/-- Is this event the free of a slot? -/
def Event.isFree : Event → Bool
  | .freeSlot _ => true
  | _ => false

/-- Is this event the durable append of a metadata batch? -/
def Event.isAppend : Event → Bool
  | .appendBatch _ => true
  | _ => false

/-- Key `"k1"` of the metadata recovery scenario. -/
def c2k1 : List Nat := [107, 49]

/-- Key `"k2"` of the metadata recovery scenario. -/
def c2k2 : List Nat := [107, 50]

/-- Slot `s1` of the metadata recovery scenario. -/
def c2s1 : SlotId := SlotId.new 0 0

/-- Slot `s2` of the metadata recovery scenario. -/
def c2s2 : SlotId := SlotId.new 1 64

/-- Slot `s3` of the metadata recovery scenario. -/
def c2s3 : SlotId := SlotId.new 2 128

/-- The metadata store after the scenario
`write_batch([(k1,s1),(k2,s2)]); write_batch([(k1,s3)])` on a freshly
opened store (arbitrary clock values 11 and 22). -/
def c2Store : MetadataStore :=
  MetadataStore.write_batch
    (MetadataStore.write_batch ⟨none, Index.empty, 0⟩ 11 [(c2k1, c2s1), (c2k2, c2s2)])
    22 [(c2k1, c2s3)]

/-- A fresh one-class store used by concrete scenarios (class size 4096,
no compression, cache capacity 10). -/
def demoStore : SlabStorage :=
  SlabStorage.openFresh [4096] CompressionAlgorithm.none 10

/-- The database name `"db1"` of the namespace scenario. -/
def dbName1 : List Nat := ascii "db1"

/-- The serialized metadata document `create_database` stores for a
database name (`Datum::Object({"name": name})`). -/
def SlabStorageEngine.dbDoc (name : List Nat) : List Nat :=
  datumToBytes (Datum.object [(ascii "name", Datum.string name)])

/-! ## Lemmas about the primitives -/

theorem u32le_length (n : Nat) : (u32le n).length = 4 := rfl

theorem leDec32_u32le (n : Nat) (h : n < 2 ^ 32) : leDec32 (u32le n) = n := by
  simp only [u32le, leDec32, List.getD_cons_zero, List.getD_cons_succ]
  omega

theorem leDec32_u32le_append (n : Nat) (rest : List Nat) (h : n < 2 ^ 32) :
    leDec32 (u32le n ++ rest) = n := by
  simp only [u32le, leDec32, List.cons_append, List.nil_append,
    List.getD_cons_zero, List.getD_cons_succ]
  omega

theorem listMin_mem : ∀ (l : List Nat) (m : Nat), listMin l = some m → m ∈ l := by
  intro l
  induction l with
  | nil => intro m h; simp [listMin] at h
  | cons x xs ih =>
    intro m h
    simp only [listMin] at h
    cases hxs : listMin xs with
    | none => rw [hxs] at h; simp at h; simp [h]
    | some m' =>
      rw [hxs] at h
      simp at h
      rcases Nat.le_total x m' with hle | hle
      · rw [Nat.min_eq_left hle] at h; simp [h]
      · rw [Nat.min_eq_right hle] at h; subst h
        exact List.mem_cons_of_mem _ (ih m' hxs)

theorem listMin_isSome : ∀ (l : List Nat), l ≠ [] → (listMin l).isSome := by
  intro l h
  cases l with
  | nil => exact absurd rfl h
  | cons x xs => simp only [listMin]; cases listMin xs <;> simp

theorem listMin_le : ∀ (l : List Nat) (m : Nat), listMin l = some m →
    ∀ x ∈ l, m ≤ x := by
  intro l
  induction l with
  | nil => intro m h; simp [listMin] at h
  | cons y ys ih =>
    intro m h x hx
    simp only [listMin] at h
    cases hys : listMin ys with
    | none =>
      rw [hys] at h; simp at h
      cases ys with
      | nil => simp at hx; omega
      | cons a as =>
        simp [listMin] at hys
        cases hys' : listMin as <;> simp [hys'] at hys
    | some m' =>
      rw [hys] at h; simp at h
      rcases List.mem_cons.mp hx with rfl | hx'
      · omega
      · have := ih m' hys x hx'; omega

theorem SizeClass.alloc_slot_size (sc : SizeClass) :
    (sc.alloc).2.slot_size = sc.slot_size := by
  unfold SizeClass.alloc
  cases h : popMin sc.free_slots with
  | none => rfl
  | some p => cases p; rfl

theorem writeAt_length (f : List Nat) (o : Nat) (data : List Nat) :
    (writeAt f o data).length = max f.length (o + data.length) := by
  unfold writeAt
  simp only [List.length_append, List.length_take, List.length_drop,
    List.length_replicate]
  omega

theorem readAt_writeAt (f : List Nat) (o : Nat) (data : List Nat) :
    readAt (writeAt f o data) o data.length = some data := by
  unfold readAt writeAt
  have hglen : (f ++ List.replicate (o + data.length - f.length) 0).length =
      max f.length (o + data.length) := by
    simp [List.length_append, List.length_replicate]; omega
  set g := f ++ List.replicate (o + data.length - f.length) 0 with hg
  have hgo : o ≤ g.length := by rw [hglen]; omega
  have h1 : (g.take o).length = o := by
    rw [List.length_take]; omega
  have hlen : (g.take o ++ data ++ g.drop (o + data.length)).length =
      max f.length (o + data.length) := by
    simp only [List.length_append, List.length_take, List.length_drop, hglen]
    omega
  rw [if_pos (by rw [hlen]; omega)]
  congr 1
  rw [List.append_assoc, List.drop_append_of_le_length (by omega),
    List.drop_of_length_le (by omega)]
  simp only [List.nil_append]
  rw [List.take_append_of_le_length (by omega), List.take_of_length_le (le_refl _)]

theorem encLE_length (k n : Nat) : (encLE k n).length = k := by
  induction k generalizing n with
  | zero => rfl
  | succ k ih => simp [encLE, ih]

theorem decLE_encLE (k n : Nat) : decLE (encLE k n) = n % 256 ^ k := by
  induction k generalizing n with
  | zero => simp [encLE, decLE, Nat.mod_one]
  | succ k ih =>
    simp only [encLE, decLE, List.foldr_cons]
    have hrec : (encLE k (n / 256)).foldr (fun b acc => b % 256 + 256 * acc) 0
        = n / 256 % 256 ^ k := ih (n / 256)
    rw [hrec]
    have h256 : (256 : Nat) ^ (k + 1) = 256 * 256 ^ k := by ring
    rw [h256, Nat.mod_mul]
    omega

theorem readLE_encLE_append (k n : Nat) (rest : List Nat) :
    readLE k (encLE k n ++ rest) = some (n % 256 ^ k, rest) := by
  unfold readLE
  rw [if_pos (by simp [encLE_length])]
  rw [List.take_append_of_le_length (by simp [encLE_length]),
    List.take_of_length_le (by simp [encLE_length]),
    List.drop_append_of_le_length (by simp [encLE_length]),
    List.drop_of_length_le (by simp [encLE_length])]
  simp [decLE_encLE]

theorem readBytes_append (b rest : List Nat) :
    readBytes b.length (b ++ rest) = some (b, rest) := by
  unfold readBytes
  rw [if_pos (by simp)]
  rw [List.take_append_of_le_length (le_refl _), List.take_of_length_le (le_refl _),
    List.drop_append_of_le_length (le_refl _), List.drop_of_length_le (le_refl _)]
  simp

theorem MetadataBatch.jsonDecMappings_jsonEnc (ms : List (List Nat × SlotId))
    (rest : List Nat)
    (h : ∀ m ∈ ms, m.1.length < 2 ^ 64 ∧ m.2.size_class < 2 ^ 64 ∧
      m.2.offset < 2 ^ 64) :
    jsonDecMappings ms.length ((ms.map jsonEncMapping).flatten ++ rest) =
      some (ms, rest) := by
  induction ms with
  | nil => simp [jsonDecMappings]
  | cons m ms ih =>
    have hm := h m (List.mem_cons_self _ _)
    have hms : ∀ m' ∈ ms, m'.1.length < 2 ^ 64 ∧ m'.2.size_class < 2 ^ 64 ∧
        m'.2.offset < 2 ^ 64 := fun m' hm' => h m' (List.mem_cons_of_mem _ hm')
    have e1 : m.1.length % 18446744073709551616 = m.1.length :=
      Nat.mod_eq_of_lt (by have := hm.1; omega)
    have e2 : m.2.size_class % 18446744073709551616 = m.2.size_class :=
      Nat.mod_eq_of_lt (by have := hm.2.1; omega)
    have e3 : m.2.offset % 18446744073709551616 = m.2.offset :=
      Nat.mod_eq_of_lt (by have := hm.2.2; omega)
    simp only [List.length_cons, List.map_cons, List.flatten_cons, jsonDecMappings,
      jsonDecMapping, jsonEncMapping, List.append_assoc, readLE_encLE_append,
      Option.bind_eq_bind, Option.some_bind, Nat.reducePow, e1, e2, e3,
      readBytes_append, ih hms]
    rfl

theorem MetadataBatch.jsonDec_jsonEnc (b : MetadataBatch) (h : b.wf) :
    jsonDec b.jsonEnc = some b := by
  obtain ⟨h1, h2, h3, h4, _⟩ := h
  have hms := MetadataBatch.jsonDecMappings_jsonEnc b.mappings []
    (fun m hm => ⟨(h4 m hm).1, (h4 m hm).2.1, (h4 m hm).2.2.1⟩)
  rw [List.append_nil] at hms
  have e1 : b.sequence % 18446744073709551616 = b.sequence :=
    Nat.mod_eq_of_lt (by omega)
  have e2 : b.timestamp % 18446744073709551616 = b.timestamp :=
    Nat.mod_eq_of_lt (by omega)
  have e3 : b.mappings.length % 18446744073709551616 = b.mappings.length :=
    Nat.mod_eq_of_lt (by omega)
  simp only [jsonDec, jsonEnc, List.append_assoc, readLE_encLE_append,
    Option.bind_eq_bind, Option.some_bind, Nat.reducePow, e1, e2, e3, hms]
  simp [MetadataBatch.new]

theorem Index.find_insert_self (i : Index) (k : List Nat) (s : SlotId) :
    Index.find (Index.insert i k s) k = some s := by
  induction i with
  | nil => simp [Index.insert, Index.find]
  | cons p rest ih =>
    simp only [Index.insert]
    by_cases h : p.1 = k
    · rw [if_pos h]; simp [Index.find]
    · rw [if_neg h]
      simp only [Index.find]
      rw [if_neg h]
      exact ih

theorem Index.find_insert_ne (i : Index) (k k' : List Nat) (s : SlotId)
    (h : k ≠ k') :
    Index.find (Index.insert i k s) k' = Index.find i k' := by
  induction i with
  | nil => simp [Index.insert, Index.find, h]
  | cons p rest ih =>
    by_cases hp : p.1 = k
    · simp only [Index.insert]
      rw [if_pos hp]
      simp only [Index.find]
      rw [if_neg h, if_neg (by rw [hp]; exact h)]
    · simp only [Index.insert]
      rw [if_neg hp]
      simp only [Index.find]
      by_cases hp' : p.1 = k'
      · rw [if_pos hp', if_pos hp']
      · rw [if_neg hp', if_neg hp', ih]

theorem Index.erase_cons_self (p : List Nat × SlotId) (rest : Index)
    (k : List Nat) (h : p.1 = k) :
    Index.erase (p :: rest) k = Index.erase rest k := by
  simp [Index.erase, List.filter_cons, h]

theorem Index.erase_cons_ne (p : List Nat × SlotId) (rest : Index)
    (k : List Nat) (h : ¬p.1 = k) :
    Index.erase (p :: rest) k = p :: Index.erase rest k := by
  simp [Index.erase, List.filter_cons, h]

theorem Index.find_erase_self (i : Index) (k : List Nat) :
    Index.find (Index.erase i k) k = none := by
  induction i with
  | nil => simp [Index.erase, Index.find]
  | cons p rest ih =>
    by_cases h : p.1 = k
    · rw [Index.erase_cons_self p rest k h]; exact ih
    · rw [Index.erase_cons_ne p rest k h]
      simp only [Index.find]
      rw [if_neg h]
      exact ih

theorem Index.find_erase_ne (i : Index) (k k' : List Nat) (h : k ≠ k') :
    Index.find (Index.erase i k) k' = Index.find i k' := by
  induction i with
  | nil => simp [Index.erase, Index.find]
  | cons p rest ih =>
    by_cases hp : p.1 = k
    · rw [Index.erase_cons_self p rest k hp, ih]
      simp only [Index.find]
      rw [if_neg (by rw [hp]; exact h)]
    · rw [Index.erase_cons_ne p rest k hp]
      simp only [Index.find]
      by_cases hp' : p.1 = k'
      · rw [if_pos hp', if_pos hp']
      · rw [if_neg hp', if_neg hp', ih]

theorem SlabCache.get_remove_self (c : SlabCache) (k : List Nat) :
    (SlabCache.get (SlabCache.remove c k) k).1 = none := by
  unfold SlabCache.get SlabCache.remove
  simp only
  rw [List.find?_eq_none.mpr]
  intro e he
  have := List.of_mem_filter he
  simpa using this

/-! ## Lemmas about the slab allocator -/

theorem list_set_getD {α : Type} (d : α) :
    ∀ (l : List α) (j : Nat), l.set j (l.getD j d) = l := by
  intro l
  induction l with
  | nil => intro j; rfl
  | cons x xs ih =>
    intro j
    cases j with
    | zero => rfl
    | succ j => simp only [List.set_cons_succ, List.getD_cons_succ, ih]

theorem allocAux_none (classes : List SizeClass) (total : Nat) : ∀ (i : Nat),
    SlabAllocator.allocAux classes total i = none ↔
      ∀ sc ∈ classes, sc.can_fit total = false := by
  induction classes with
  | nil => intro i; simp [SlabAllocator.allocAux]
  | cons sc rest ih =>
    intro i
    simp only [SlabAllocator.allocAux]
    by_cases h : sc.can_fit total
    · simp [h]
    · simp only [if_neg h, Option.map_eq_none']
      rw [ih (i + 1)]
      constructor
      · intro hall sc' hsc'
        rcases List.mem_cons.mp hsc' with rfl | hmem
        · simpa using h
        · exact hall sc' hmem
      · intro hall sc' hsc'
        exact hall sc' (List.mem_cons_of_mem _ hsc')

theorem allocAux_some_spec :
    ∀ (classes : List SizeClass) (total i idx off : Nat) (classes' : List SizeClass),
    SlabAllocator.allocAux classes total i = some (idx, off, classes') →
    ∃ j, j < classes.length ∧ idx = i + j ∧
      (classes.getD j default).can_fit total = true ∧
      off = ((classes.getD j default).alloc).1 ∧
      classes' = classes.set j ((classes.getD j default).alloc).2 ∧
      ∀ j', j' < j → (classes.getD j' default).can_fit total = false := by
  intro classes
  induction classes with
  | nil => intro total i idx off classes' h; simp [SlabAllocator.allocAux] at h
  | cons sc rest ih =>
    intro total i idx off classes' h
    simp only [SlabAllocator.allocAux] at h
    by_cases hfit : sc.can_fit total
    · rw [if_pos hfit] at h
      simp only [Option.some.injEq, Prod.mk.injEq] at h
      obtain ⟨hidx, hoff, hcs⟩ := h
      refine ⟨0, by simp, by omega, ?_, ?_, ?_, ?_⟩
      · simpa using hfit
      · simpa using hoff.symm
      · simpa using hcs.symm
      · intro j' hj'; omega
    · rw [if_neg hfit] at h
      rcases Option.map_eq_some'.mp h with ⟨r, hr, hmap⟩
      obtain ⟨j, hjlen, hidx, hcf, hoff, hcs, hprev⟩ :=
        ih total (i + 1) r.1 r.2.1 r.2.2 (by rw [hr])
      simp only [Prod.mk.injEq] at hmap
      obtain ⟨h1, h2, h3⟩ := hmap
      refine ⟨j + 1, by simpa using Nat.succ_lt_succ hjlen, by omega, ?_, ?_, ?_, ?_⟩
      · simpa using hcf
      · rw [← h2]; simpa using hoff
      · rw [← h3, hcs]; rfl
      · intro j' hj'
        cases j' with
        | zero => simpa using eq_false_of_ne_true (by simpa using hfit)
        | succ j'' =>
          simpa using hprev j'' (by omega)

theorem foldlMax_le_cases (l : List SizeClass) : ∀ (init n : Nat),
    n ≤ l.foldl (fun m sc => max m sc.slot_size) init →
    n ≤ init ∨ ∃ sc ∈ l, n ≤ sc.slot_size := by
  induction l with
  | nil => intro init n h; exact Or.inl h
  | cons sc rest ih =>
    intro init n h
    rcases ih (max init sc.slot_size) n h with hle | ⟨sc', hsc', hle⟩
    · rcases le_max_iff.mp hle with h2 | h2
      · exact Or.inl h2
      · exact Or.inr ⟨sc, List.mem_cons_self _ _, h2⟩
    · exact Or.inr ⟨sc', List.mem_cons_of_mem _ hsc', hle⟩

theorem le_foldlMax_of_mem (l : List SizeClass) : ∀ (init : Nat) (sc : SizeClass),
    sc ∈ l → sc.slot_size ≤ l.foldl (fun m sc => max m sc.slot_size) init := by
  induction l with
  | nil => intro init sc h; simp at h
  | cons x rest ih =>
    intro init sc h
    rcases List.mem_cons.mp h with rfl | hmem
    · have : ∀ (init' : Nat) (l' : List SizeClass), init' ≤
          l'.foldl (fun m sc => max m sc.slot_size) init' := by
        intro init' l'
        induction l' generalizing init' with
        | nil => exact le_refl _
        | cons y ys ih' => exact le_trans (Nat.le_max_left _ _) (ih' _)
      exact le_trans (Nat.le_max_right init sc.slot_size) (this _ rest)
    · exact ih _ sc hmem

theorem exists_fit_of_le_max (a : SlabAllocator) (n : Nat) (hpos : 0 < n)
    (h : n ≤ a.maxSlotSize) : ∃ sc ∈ a.size_classes, n ≤ sc.slot_size := by
  rcases foldlMax_le_cases a.size_classes 0 n h with h0 | hex
  · omega
  · exact hex

theorem maxSlotSize_congr (a a' : SlabAllocator)
    (h : a'.size_classes.map SizeClass.slot_size =
      a.size_classes.map SizeClass.slot_size) :
    a'.maxSlotSize = a.maxSlotSize := by
  unfold SlabAllocator.maxSlotSize
  rw [show ∀ (l : List SizeClass) (init : Nat),
      l.foldl (fun m sc => max m sc.slot_size) init =
        (l.map SizeClass.slot_size).foldl max init from
      fun l init => (List.foldl_map SizeClass.slot_size max l init).symm,
    show ∀ (l : List SizeClass) (init : Nat),
      l.foldl (fun m sc => max m sc.slot_size) init =
        (l.map SizeClass.slot_size).foldl max init from
      fun l init => (List.foldl_map SizeClass.slot_size max l init).symm,
    h]

theorem map_slot_size_set (classes : List SizeClass) (j : Nat) (sc' : SizeClass)
    (hs : sc'.slot_size = (classes.getD j default).slot_size) :
    (classes.set j sc').map SizeClass.slot_size =
      classes.map SizeClass.slot_size := by
  rw [List.map_set, hs]
  by_cases hj : j < classes.length
  · rw [List.getD_eq_getElem classes default hj,
      show classes[j].slot_size = (classes.map SizeClass.slot_size).getD j 0 by
        rw [List.getD_eq_getElem _ 0 (by simpa using hj)]
        simp,
      list_set_getD]
  · rw [List.set_eq_of_length_le (by simpa using Nat.le_of_not_lt hj)]

theorem SlabAllocator.allocate_ok (a : SlabAllocator) (size : Nat)
    (h : ∃ sc ∈ a.size_classes, size + 4 ≤ sc.slot_size) :
    ∃ slot a', a.allocate size = (.ok slot, a') ∧
      slot.size_class < a.size_classes.length ∧
      a'.files = a.files ∧
      a'.size_classes = a.size_classes.set slot.size_class
        ((a.size_classes.getD slot.size_class default).alloc).2 ∧
      size + 4 ≤ (a.size_classes.getD slot.size_class default).slot_size ∧
      slot.offset = ((a.size_classes.getD slot.size_class default).alloc).1 := by
  have hne : SlabAllocator.allocAux a.size_classes (size + 4) 0 ≠ none := by
    intro hnone
    obtain ⟨sc, hmem, hle⟩ := h
    have := (allocAux_none a.size_classes (size + 4) 0).mp hnone sc hmem
    simp [SizeClass.can_fit] at this
    omega
  rcases ha : SlabAllocator.allocAux a.size_classes (size + 4) 0 with _ | ⟨idx, off, cs⟩
  · exact absurd ha hne
  · obtain ⟨j, hjlen, hidx, hcf, hoff, hcs, _⟩ :=
      allocAux_some_spec a.size_classes (size + 4) 0 idx off cs ha
    refine ⟨SlotId.new idx off, { a with size_classes := cs }, ?_, ?_, rfl, ?_, ?_, ?_⟩
    · simp only [SlabAllocator.allocate]
      rw [ha]
    · simpa [SlotId.new] using hidx ▸ (by omega : (0 : Nat) + j < a.size_classes.length)
    · simp [SlotId.new, hcs, hidx]
    · have h2 := hcf
      simp only [SizeClass.can_fit, decide_eq_true_eq] at h2
      simpa [SlotId.new, hidx] using h2
    · simpa [SlotId.new, hidx] using hoff

theorem SlabAllocator.free_ok (a : SlabAllocator) (slot : SlotId)
    (h : slot.size_class < a.size_classes.length) :
    (a.free slot).1 = .ok () ∧
    (a.free slot).2.files = a.files ∧
    (a.free slot).2.size_classes = a.size_classes.set slot.size_class
      ((a.size_classes.getD slot.size_class default).pushFree slot.offset) := by
  unfold SlabAllocator.free
  rw [dif_pos (by simpa [SlotId.file_index] using h)]
  refine ⟨rfl, rfl, ?_⟩
  simp only [SlotId.file_index]
  rw [List.getD_eq_getElem a.size_classes default h]
  rfl

theorem SlabAllocator.write_ok (a : SlabAllocator) (slot : SlotId) (data : List Nat)
    (hf : slot.size_class < a.files.length)
    (hc : slot.size_class < a.size_classes.length)
    (hsz : data.length + 4 ≤ (a.size_classes.getD slot.size_class default).slot_size) :
    (a.write slot data).1 = .ok () ∧
    (a.write slot data).2.size_classes = a.size_classes ∧
    (a.write slot data).2.files = a.files.set slot.size_class
      (writeAt (a.files.getD slot.size_class []) slot.offset
        (u32le data.length ++ data)) := by
  unfold SlabAllocator.write
  rw [dif_pos (by simpa [SlotId.file_index] using hf),
    dif_pos (by simpa [SlotId.file_index] using hc)]
  rw [if_neg (by
    simp only [SlotId.file_index]
    rw [List.getD_eq_getElem a.size_classes default hc] at hsz
    simp only [List.get_eq_getElem]
    omega)]
  refine ⟨rfl, rfl, ?_⟩
  simp only [SlotId.file_index, List.get_eq_getElem]
  rw [List.getD_eq_getElem a.files [] hf]

theorem readAt_writeAt_frame (f : List Nat) (o : Nat) (data : List Nat) :
    readAt (writeAt f o (u32le data.length ++ data)) o 4 =
      some (u32le data.length) ∧
    readAt (writeAt f o (u32le data.length ++ data)) (o + 4) data.length =
      some data := by
  have h := readAt_writeAt f o (u32le data.length ++ data)
  have hfl : (u32le data.length ++ data).length = 4 + data.length := by
    simp [u32le_length]
  rw [hfl] at h
  unfold readAt at h
  by_cases hb : o + (4 + data.length) ≤
      (writeAt f o (u32le data.length ++ data)).length
  case neg => rw [if_neg hb] at h; cases h
  rw [if_pos hb] at h
  have heq := Option.some.inj h
  constructor
  · unfold readAt
    rw [if_pos (by omega)]
    congr 1
    have h4 : ((writeAt f o (u32le data.length ++ data)).drop o).take 4 =
        (((writeAt f o (u32le data.length ++ data)).drop o).take
          (4 + data.length)).take 4 := by
      rw [List.take_take]
      congr 1
      omega
    rw [h4, heq, List.take_append_of_le_length (by simp [u32le_length]),
      List.take_of_length_le (by simp [u32le_length])]
  · unfold readAt
    rw [if_pos (by omega)]
    congr 1
    have h2 : (writeAt f o (u32le data.length ++ data)).drop (o + 4) =
        ((writeAt f o (u32le data.length ++ data)).drop o).drop 4 := by
      rw [List.drop_drop]
    have h3 : (((writeAt f o (u32le data.length ++ data)).drop o).take
        (4 + data.length)).drop 4 =
        (((writeAt f o (u32le data.length ++ data)).drop o).drop 4).take
          data.length := by
      rw [List.drop_take]
      congr 1
      omega
    rw [h2, ← h3, heq, List.drop_append_of_le_length (by simp [u32le_length]),
      List.drop_of_length_le (by simp [u32le_length]), List.nil_append]

theorem SlabAllocator.read_write_roundtrip (f : List Nat) (a : SlabAllocator)
    (slot : SlotId) (data : List Nat)
    (hf : slot.size_class < a.files.length)
    (hlt : data.length < 2 ^ 32)
    (hfile : a.files.getD slot.size_class [] =
      writeAt f slot.offset (u32le data.length ++ data)) :
    a.read slot = .ok data := by
  obtain ⟨h1, h2⟩ := readAt_writeAt_frame f slot.offset data
  unfold SlabAllocator.read
  rw [dif_pos (by simpa [SlotId.file_index] using hf)]
  simp only [SlotId.file_index, List.get_eq_getElem]
  rw [← List.getD_eq_getElem a.files [] hf, hfile, h1]
  simp only [leDec32_u32le data.length hlt, h2]

/-! ## Lemmas about the metadata log -/

theorem foldl_xor_init (l : List Nat) : ∀ a : Nat,
    l.foldl (fun x y => x ^^^ y) a = a ^^^ xorFold l := by
  induction l with
  | nil => intro a; simp [xorFold]
  | cons x xs ih =>
    intro a
    have hx : xorFold (x :: xs) = x ^^^ xorFold xs := by
      simp only [xorFold, List.foldl_cons, Nat.zero_xor]
      rw [ih x]
      rfl
    simp only [List.foldl_cons]
    rw [ih (a ^^^ x), hx, Nat.xor_assoc]

theorem xorFold_cons (x : Nat) (xs : List Nat) :
    xorFold (x :: xs) = x ^^^ xorFold xs := by
  simp only [xorFold, List.foldl_cons, Nat.zero_xor]
  rw [foldl_xor_init]
  rfl

theorem xor_left_cancel (a b c : Nat) (h : a ^^^ b = a ^^^ c) : b = c := by
  have := congrArg (fun x => a ^^^ x) h
  simpa [← Nat.xor_assoc, Nat.xor_self, Nat.zero_xor] using this

theorem xorFold_set_ne : ∀ (l : List Nat) (i x : Nat), i < l.length →
    x ≠ l.getD i 0 → xorFold (l.set i x) ≠ xorFold l := by
  intro l
  induction l with
  | nil => intro i x hi; simp at hi
  | cons y ys ih =>
    intro i x hi hx
    cases i with
    | zero =>
      simp only [List.getD_cons_zero] at hx
      simp only [List.set_cons_zero, xorFold_cons]
      intro h
      have h2 : xorFold ys ^^^ x = xorFold ys ^^^ y := by
        rw [Nat.xor_comm (xorFold ys) x, Nat.xor_comm (xorFold ys) y]
        exact h
      exact hx (xor_left_cancel _ _ _ h2)
    | succ i =>
      simp only [List.getD_cons_succ] at hx
      simp only [List.set_cons_succ, xorFold_cons]
      intro h
      exact ih i x (by simpa using hi) hx (xor_left_cancel _ _ _ h)

theorem encLE_lt : ∀ (k n : Nat), ∀ x ∈ encLE k n, x < 256 := by
  intro k
  induction k with
  | zero => intro n x hx; simp [encLE] at hx
  | succ k ih =>
    intro n x hx
    simp only [encLE, List.mem_cons] at hx
    rcases hx with rfl | hx
    · exact Nat.mod_lt _ (by omega)
    · exact ih (n / 256) x hx

theorem jsonEnc_bytes_lt (b : MetadataBatch)
    (h : ∀ m ∈ b.mappings, ∀ x ∈ m.1, x < 256) :
    ∀ x ∈ b.jsonEnc, x < 256 := by
  intro x hx
  simp only [MetadataBatch.jsonEnc, List.mem_append] at hx
  rcases hx with ((hx | hx) | hx) | hx
  · exact encLE_lt 8 b.sequence x hx
  · exact encLE_lt 8 b.timestamp x hx
  · exact encLE_lt 8 b.mappings.length x hx
  · rcases List.mem_flatten.mp hx with ⟨chunk, hchunk, hxc⟩
    rcases List.mem_map.mp hchunk with ⟨m, hm, rfl⟩
    simp only [MetadataBatch.jsonEncMapping, List.mem_append] at hxc
    rcases hxc with ((hx1 | hx1) | hx1) | hx1
    · exact encLE_lt 8 m.1.length x hx1
    · exact h m hm x hx1
    · exact encLE_lt 8 m.2.size_class x hx1
    · exact encLE_lt 8 m.2.offset x hx1

theorem xorFold_lt (l : List Nat) (h : ∀ x ∈ l, x < 256) : xorFold l < 256 := by
  induction l with
  | nil => simp [xorFold]
  | cons x xs ih =>
    rw [xorFold_cons]
    have h1 : x < 2 ^ 8 := by simpa using h x (List.mem_cons_self _ _)
    have h2 : xorFold xs < 2 ^ 8 := by
      simpa using ih (fun y hy => h y (List.mem_cons_of_mem _ hy))
    simpa using Nat.xor_lt_two_pow h1 h2

theorem to_bytes_length (b : MetadataBatch) :
    b.to_bytes.length = b.jsonEnc.length + 8 := by
  simp [MetadataBatch.to_bytes, u32le]

theorem from_bytes_to_bytes (b : MetadataBatch) (hwf : b.wf) :
    MetadataBatch.from_bytes b.to_bytes = .ok b := by
  have hjl : b.jsonEnc.length < 2 ^ 32 := hwf.2.2.2.2
  have hbytes : ∀ x ∈ b.jsonEnc, x < 256 :=
    jsonEnc_bytes_lt b (fun m hm => (hwf.2.2.2.1 m hm).2.2.2)
  have hck : xorFold b.jsonEnc < 2 ^ 32 := by
    have := xorFold_lt b.jsonEnc hbytes
    omega
  unfold MetadataBatch.from_bytes MetadataBatch.to_bytes
  rw [if_neg (by
    rw [show (u32le b.jsonEnc.length ++ b.jsonEnc ++ u32le (xorFold b.jsonEnc)).length
        = b.jsonEnc.length + 8 from to_bytes_length b]
    omega)]
  have htake4 : (u32le b.jsonEnc.length ++ b.jsonEnc
      ++ u32le (xorFold b.jsonEnc)).take 4 = u32le b.jsonEnc.length := by
    rw [List.append_assoc, List.take_append_of_le_length (by simp [u32le_length]),
      List.take_of_length_le (by simp [u32le_length])]
  rw [htake4, leDec32_u32le b.jsonEnc.length hjl]
  rw [if_neg (by
    rw [show (u32le b.jsonEnc.length ++ b.jsonEnc ++ u32le (xorFold b.jsonEnc)).length
        = b.jsonEnc.length + 8 from to_bytes_length b]
    omega)]
  have hdrop4 : (u32le b.jsonEnc.length ++ b.jsonEnc
      ++ u32le (xorFold b.jsonEnc)).drop 4 = b.jsonEnc ++ u32le (xorFold b.jsonEnc) := by
    rw [List.append_assoc,
      show (4 : Nat) = (u32le b.jsonEnc.length).length from (u32le_length _).symm,
      List.drop_left]
  rw [hdrop4, List.take_append_of_le_length (le_refl _),
    List.take_of_length_le (le_refl _)]
  have hdropck : (u32le b.jsonEnc.length ++ b.jsonEnc
      ++ u32le (xorFold b.jsonEnc)).drop (4 + b.jsonEnc.length) =
      u32le (xorFold b.jsonEnc) := by
    rw [show 4 + b.jsonEnc.length =
        (u32le b.jsonEnc.length ++ b.jsonEnc).length by simp [u32le_length],
      List.drop_left]
  rw [hdropck, List.take_of_length_le (by simp [u32le_length]),
    leDec32_u32le _ hck]
  rw [if_neg (by simp)]
  rw [MetadataBatch.jsonDec_jsonEnc b hwf]

theorem recoverLoop_done (bytes : List Nat) (idx : Index) (mx : Nat)
    (h : bytes.length < 4) : recoverLoop bytes idx mx = .ok (idx, mx) := by
  rw [recoverLoop]
  rw [dif_pos h]

theorem recoverLoop_step (b : MetadataBatch) (hwf : b.wf) (rest : List Nat)
    (idx : Index) (mx : Nat) :
    recoverLoop (b.to_bytes ++ rest) idx mx =
      recoverLoop rest (Index.applyMappings b.mappings idx) (max mx b.sequence) := by
  have hjl : b.jsonEnc.length < 2 ^ 32 := hwf.2.2.2.2
  have hlen : b.to_bytes.length = b.jsonEnc.length + 8 := to_bytes_length b
  rw [recoverLoop]
  rw [dif_neg (by simp only [List.length_append]; omega)]
  have htake4 : (b.to_bytes ++ rest).take 4 = u32le b.jsonEnc.length := by
    unfold MetadataBatch.to_bytes
    rw [List.append_assoc, List.append_assoc,
      List.take_append_of_le_length (by simp [u32le_length]),
      List.take_of_length_le (by simp [u32le_length])]
  rw [htake4, leDec32_u32le b.jsonEnc.length hjl]
  rw [if_neg (by simp only [List.length_append]; omega)]
  have htake : (b.to_bytes ++ rest).take (b.jsonEnc.length + 8) = b.to_bytes := by
    rw [show b.jsonEnc.length + 8 = b.to_bytes.length from hlen.symm, List.take_left]
  have hdrop : (b.to_bytes ++ rest).drop (b.jsonEnc.length + 8) = rest := by
    rw [show b.jsonEnc.length + 8 = b.to_bytes.length from hlen.symm, List.drop_left]
  rw [htake, from_bytes_to_bytes b hwf, hdrop]

theorem recoverLoop_logBytes (bs : List MetadataBatch)
    (h : ∀ b ∈ bs, b.wf) : ∀ (tail : List Nat) (idx : Index) (mx : Nat),
    recoverLoop (logBytes bs ++ tail) idx mx =
      recoverLoop tail
        (bs.foldl (fun i b => Index.applyMappings b.mappings i) idx)
        (bs.foldl (fun m b => max m b.sequence) mx) := by
  induction bs with
  | nil => intro tail idx mx; simp [logBytes]
  | cons b bs ih =>
    intro tail idx mx
    have hb : b.wf := h b (List.mem_cons_self _ _)
    have hbs : ∀ b' ∈ bs, b'.wf := fun b' hb' => h b' (List.mem_cons_of_mem _ hb')
    simp only [logBytes, List.map_cons, List.flatten_cons, List.append_assoc]
    rw [recoverLoop_step b hb _ idx mx]
    simpa [logBytes] using ih hbs tail (Index.applyMappings b.mappings idx)
      (max mx b.sequence)

theorem openStore_logBytes (bs : List MetadataBatch) (h : ∀ b ∈ bs, b.wf) :
    MetadataStore.openStore (some (logBytes bs)) =
      .ok ⟨some (logBytes bs), logIndex bs, logMaxSeq bs + 1⟩ := by
  have h2 : recoverLoop (logBytes bs) Index.empty 0 =
      .ok (logIndex bs, logMaxSeq bs) := by
    have h3 := recoverLoop_logBytes bs h [] Index.empty 0
    rw [List.append_nil] at h3
    rw [h3, recoverLoop_done [] _ _ (by simp)]
    rfl
  simp only [MetadataStore.openStore, h2]

theorem set_append_of_lt {α : Type} : ∀ (xs : List α) (ys : List α) (i : Nat)
    (v : α), i < xs.length → (xs ++ ys).set i v = xs.set i v ++ ys := by
  intro xs
  induction xs with
  | nil => intro ys i v h; simp at h
  | cons x xs ih =>
    intro ys i v h
    cases i with
    | zero => simp
    | succ i =>
      simp only [List.cons_append, List.set_cons_succ]
      rw [ih ys i v (by simpa using h)]

theorem set_append_add {α : Type} : ∀ (xs : List α) (ys : List α) (i : Nat)
    (v : α), (xs ++ ys).set (xs.length + i) v = xs ++ ys.set i v := by
  intro xs
  induction xs with
  | nil => intro ys i v; simp
  | cons x xs ih =>
    intro ys i v
    simp only [List.cons_append, List.length_cons]
    rw [show xs.length + 1 + i = (xs.length + i) + 1 by omega, List.set_cons_succ,
      ih ys i v]

theorem to_bytes_set_payload (b : MetadataBatch) (i v : Nat)
    (h : i < b.jsonEnc.length) :
    b.to_bytes.set (4 + i) v =
      u32le b.jsonEnc.length ++ (b.jsonEnc.set i v ++ u32le (xorFold b.jsonEnc)) := by
  simp only [MetadataBatch.to_bytes]
  rw [List.append_assoc,
    show (4 : Nat) + i = (u32le b.jsonEnc.length).length + i by rw [u32le_length],
    set_append_add, set_append_of_lt _ _ _ _ h]

theorem from_bytes_corrupt (b : MetadataBatch) (hwf : b.wf) (i v : Nat)
    (hi : i < b.jsonEnc.length) (hv : v ≠ b.jsonEnc.getD i 0) :
    MetadataBatch.from_bytes (b.to_bytes.set (4 + i) v) =
      .error .checksumMismatch := by
  have hjl : b.jsonEnc.length < 2 ^ 32 := hwf.2.2.2.2
  have hbytes : ∀ x ∈ b.jsonEnc, x < 256 :=
    jsonEnc_bytes_lt b (fun m hm => (hwf.2.2.2.1 m hm).2.2.2)
  have hck : xorFold b.jsonEnc < 2 ^ 32 := by
    have := xorFold_lt b.jsonEnc hbytes
    omega
  have hlenJ : (b.jsonEnc.set i v).length = b.jsonEnc.length := by simp
  rw [to_bytes_set_payload b i v hi]
  have hflen : (u32le b.jsonEnc.length ++ (b.jsonEnc.set i v
      ++ u32le (xorFold b.jsonEnc))).length = b.jsonEnc.length + 8 := by
    simp only [List.length_append, List.length_set, u32le_length]
    omega
  unfold MetadataBatch.from_bytes
  rw [if_neg (by rw [hflen]; omega)]
  have htake4 : (u32le b.jsonEnc.length ++ (b.jsonEnc.set i v
      ++ u32le (xorFold b.jsonEnc))).take 4 = u32le b.jsonEnc.length := by
    rw [List.take_append_of_le_length (by simp [u32le_length]),
      List.take_of_length_le (by simp [u32le_length])]
  rw [htake4, leDec32_u32le b.jsonEnc.length hjl]
  rw [if_neg (by rw [hflen]; omega)]
  have hdrop4 : (u32le b.jsonEnc.length ++ (b.jsonEnc.set i v
      ++ u32le (xorFold b.jsonEnc))).drop 4 =
      b.jsonEnc.set i v ++ u32le (xorFold b.jsonEnc) := by
    rw [show (4 : Nat) = (u32le b.jsonEnc.length).length from (u32le_length _).symm,
      List.drop_left]
  rw [hdrop4]
  rw [show (b.jsonEnc.set i v ++ u32le (xorFold b.jsonEnc)).take b.jsonEnc.length
      = b.jsonEnc.set i v by
    rw [show b.jsonEnc.length = (b.jsonEnc.set i v).length from hlenJ.symm,
      List.take_left]]
  have hdropck : (u32le b.jsonEnc.length ++ (b.jsonEnc.set i v
      ++ u32le (xorFold b.jsonEnc))).drop (4 + b.jsonEnc.length) =
      u32le (xorFold b.jsonEnc) := by
    rw [← List.append_assoc,
      show 4 + b.jsonEnc.length =
        (u32le b.jsonEnc.length ++ b.jsonEnc.set i v).length by
        simp [u32le_length],
      List.drop_left]
  rw [hdropck, List.take_of_length_le (by simp [u32le_length]),
    leDec32_u32le _ hck]
  rw [if_pos (Ne.symm (xorFold_set_ne b.jsonEnc i v hi hv))]

theorem recoverLoop_corrupt (b : MetadataBatch) (hwf : b.wf) (i v : Nat)
    (hi : i < b.jsonEnc.length) (hv : v ≠ b.jsonEnc.getD i 0) (rest : List Nat)
    (idx : Index) (mx : Nat) :
    recoverLoop (b.to_bytes.set (4 + i) v ++ rest) idx mx = .ok (idx, mx) := by
  have hjl : b.jsonEnc.length < 2 ^ 32 := hwf.2.2.2.2
  have hlen : (b.to_bytes.set (4 + i) v).length = b.jsonEnc.length + 8 := by
    rw [List.length_set, to_bytes_length]
  rw [recoverLoop]
  rw [dif_neg (by simp only [List.length_append, hlen]; omega)]
  have htake4 : ((b.to_bytes.set (4 + i) v) ++ rest).take 4
      = u32le b.jsonEnc.length := by
    rw [to_bytes_set_payload b i v hi, List.append_assoc,
      List.take_append_of_le_length (by simp [u32le_length]),
      List.take_of_length_le (by simp [u32le_length])]
  rw [htake4, leDec32_u32le _ hjl]
  rw [if_neg (by simp only [List.length_append, hlen]; omega)]
  have htake : ((b.to_bytes.set (4 + i) v) ++ rest).take (b.jsonEnc.length + 8)
      = b.to_bytes.set (4 + i) v := by
    rw [show b.jsonEnc.length + 8 = (b.to_bytes.set (4 + i) v).length
        from hlen.symm, List.take_left]
  rw [htake, from_bytes_corrupt b hwf i v hi hv]

theorem recoverLoop_incomplete (n : Nat) (hn : n < 2 ^ 32) (body : List Nat)
    (hb : body.length < n + 4) (idx : Index) (mx : Nat) :
    recoverLoop (u32le n ++ body) idx mx = .error .readBatchFailed := by
  rw [recoverLoop]
  rw [dif_neg (by simp only [List.length_append, u32le_length]; omega)]
  have htake4 : (u32le n ++ body).take 4 = u32le n := by
    rw [List.take_append_of_le_length (by simp [u32le_length]),
      List.take_of_length_le (by simp [u32le_length])]
  rw [htake4, leDec32_u32le n hn]
  rw [if_pos (by simp only [List.length_append, u32le_length]; omega)]

theorem openStore_corrupt (bs : List MetadataBatch) (h : ∀ x ∈ bs, x.wf)
    (b : MetadataBatch) (hb : b.wf) (i v : Nat) (hi : i < b.jsonEnc.length)
    (hv : v ≠ b.jsonEnc.getD i 0) (rest : List Nat) :
    MetadataStore.openStore
        (some (logBytes bs ++ (b.to_bytes.set (4 + i) v ++ rest))) =
      .ok ⟨some (logBytes bs ++ (b.to_bytes.set (4 + i) v ++ rest)),
        logIndex bs, logMaxSeq bs + 1⟩ := by
  have h2 : recoverLoop (logBytes bs ++ (b.to_bytes.set (4 + i) v ++ rest))
      Index.empty 0 = .ok (logIndex bs, logMaxSeq bs) := by
    rw [recoverLoop_logBytes bs h _ Index.empty 0,
      recoverLoop_corrupt b hb i v hi hv]
    rfl
  simp only [MetadataStore.openStore, h2]

theorem openStore_incomplete (bs : List MetadataBatch) (h : ∀ x ∈ bs, x.wf)
    (n : Nat) (hn : n < 2 ^ 32) (body : List Nat) (hb : body.length < n + 4) :
    MetadataStore.openStore (some (logBytes bs ++ (u32le n ++ body))) =
      .error .readBatchFailed := by
  have h2 : recoverLoop (logBytes bs ++ (u32le n ++ body)) Index.empty 0 =
      .error .readBatchFailed := by
    rw [recoverLoop_logBytes bs h _ Index.empty 0,
      recoverLoop_incomplete n hn body hb]
  simp only [MetadataStore.openStore, h2]

/-! ## Lemmas about the handshake -/

theorem readU32_u32le (n : Nat) (rest : List Nat) (h : n < 2 ^ 32) :
    readU32 (u32le n ++ rest) = some (n, rest) := by
  show some (leDec32 [n % 256, n / 256 % 256, n / 256 ^ 2 % 256,
    n / 256 ^ 3 % 256], rest) = some (n, rest)
  rw [show [n % 256, n / 256 % 256, n / 256 ^ 2 % 256, n / 256 ^ 3 % 256]
    = u32le n from rfl, leDec32_u32le n h]

theorem accept_v0_1 (sv input : List Nat) :
    Handshake.accept sv (u32le VERSION_V0_1 ++ input) =
      .error .protobufUnsupported := rfl

theorem readAuthKey_some (ver : ProtocolVersion) (hne : ver ≠ .v0_1)
    (key rest : List Nat) (hk : key.length ≤ 4096)
    (hu : validUtf8 (stripNul key) = true) :
    readAuthKey ver (u32le key.length ++ (key ++ rest)) =
      .ok (some (stripNul key), rest) := by
  have h32 : key.length < 2 ^ 32 := by omega
  simp only [readAuthKey, readU32_u32le _ _ h32, readBytes_append]
  rw [if_pos hne, if_neg (show ¬ key.length > 4096 by omega), if_pos hu]

theorem accept_v0_2 (sv key rest : List Nat) (hk : key.length ≤ 4096)
    (hu : validUtf8 (stripNul key) = true) :
    Handshake.accept sv (u32le VERSION_V0_2 ++ (u32le key.length
      ++ (key ++ rest))) = .error .protobufUnsupported := by
  have h1 : ProtocolVersion.from_magic VERSION_V0_2 = .ok .v0_2 := rfl
  simp only [Handshake.accept,
    readU32_u32le VERSION_V0_2 (u32le key.length ++ (key ++ rest)) (by decide),
    h1, readAuthKey_some .v0_2 (by decide) key rest hk hu]
  rw [if_neg (by decide)]

theorem accept_json_version (sv : List Nat) (m : Nat) (ver : ProtocolVersion)
    (hm : ProtocolVersion.from_magic m = .ok ver)
    (hv : ver.supports_json = true) (hm32 : m < 2 ^ 32)
    (key : List Nat) (hk : key.length ≤ 4096)
    (hu : validUtf8 (stripNul key) = true)
    (pm : Nat) (proto : WireProtocol)
    (hpm : WireProtocol.from_magic pm = .ok proto) (hpm32 : pm < 2 ^ 32)
    (rest : List Nat) :
    Handshake.accept sv (u32le m ++ (u32le key.length
      ++ (key ++ (u32le pm ++ rest)))) =
      .ok (⟨ver, proto, some (stripNul key)⟩, rest,
        (if ver = .v1_0 then v1SuccessResponse sv else ascii "SUCCESS")
          ++ [0]) := by
  have hne : ver ≠ .v0_1 := by
    intro he
    subst he
    exact absurd hv (by decide)
  simp only [Handshake.accept, readU32_u32le _ _ hm32, hm,
    readAuthKey_some ver hne key _ hk hu, hv,
    readU32_u32le _ _ hpm32, hpm, if_true]

theorem accept_unknown_version (sv : List Nat) (m : Nat) (hm32 : m < 2 ^ 32)
    (h1 : m ≠ VERSION_V0_1) (h2 : m ≠ VERSION_V0_2) (h3 : m ≠ VERSION_V0_3)
    (h4 : m ≠ VERSION_V0_4) (h5 : m ≠ VERSION_V1_0) (rest : List Nat) :
    Handshake.accept sv (u32le m ++ rest) =
      .error (.unsupportedVersion m) := by
  have hfm : ProtocolVersion.from_magic m = .error (.unsupportedVersion m) := by
    simp only [ProtocolVersion.from_magic]
    rw [if_neg h1, if_neg h2, if_neg h3, if_neg h4, if_neg h5]
  simp only [Handshake.accept, readU32_u32le _ _ hm32, hfm]

/-! ## Lemmas about the composed storage engine -/

theorem getD_set_self {α : Type} (l : List α) (j : Nat) (x d : α)
    (h : j < l.length) : (l.set j x).getD j d = x := by
  rw [List.getD_eq_getElem _ d (by simpa using h)]
  exact List.getElem_set_self (by simpa using h)

theorem exists_size_congr (l l' : List SizeClass)
    (h : l'.map SizeClass.slot_size = l.map SizeClass.slot_size)
    (P : Nat → Prop) (hex : ∃ sc ∈ l, P sc.slot_size) :
    ∃ sc ∈ l', P sc.slot_size := by
  obtain ⟨sc, hmem, hp⟩ := hex
  have : sc.slot_size ∈ l'.map SizeClass.slot_size := by
    rw [h]
    exact List.mem_map_of_mem _ hmem
  rcases List.mem_map.mp this with ⟨sc', hmem', heq⟩
  exact ⟨sc', hmem', heq ▸ hp⟩

theorem forall_size_congr (l l' : List SizeClass)
    (h : l'.map SizeClass.slot_size = l.map SizeClass.slot_size)
    (P : Nat → Prop) (hall : ∀ sc ∈ l, P sc.slot_size) :
    ∀ sc ∈ l', P sc.slot_size := by
  intro sc' hmem'
  have : sc'.slot_size ∈ l.map SizeClass.slot_size := by
    rw [← h]
    exact List.mem_map_of_mem _ hmem'
  rcases List.mem_map.mp this with ⟨sc, hmem, heq⟩
  exact heq ▸ hall sc hmem

theorem MetadataStore.write_batch_single (s : MetadataStore) (now : Nat)
    (k : List Nat) (slot : SlotId) :
    (s.write_batch now [(k, slot)]).index = Index.insert s.index k slot ∧
    (s.write_batch now [(k, slot)]).next_sequence = s.next_sequence + 1 := by
  unfold MetadataStore.write_batch
  rw [if_neg (by simp)]
  exact ⟨rfl, rfl⟩

theorem SlabStorage.setFinish_spec (now : Nat) (s : SlabStorage)
    (k compressed : List Nat) (ev : List Event)
    (hfit : ∃ sc ∈ s.allocator.size_classes, compressed.length + 4 ≤ sc.slot_size)
    (hszlt : ∀ sc ∈ s.allocator.size_classes, sc.slot_size < 2 ^ 32)
    (hlen : s.allocator.files.length = s.allocator.size_classes.length) :
    ∃ slot,
      (SlabStorage.setFinish now s k compressed ev).1 = .ok () ∧
      (SlabStorage.setFinish now s k compressed ev).2.1.metadata =
        s.metadata.write_batch now [(k, slot)] ∧
      (SlabStorage.setFinish now s k compressed ev).2.1.cache =
        s.cache.remove k ∧
      (SlabStorage.setFinish now s k compressed ev).2.1.compression =
        s.compression ∧
      (SlabStorage.setFinish now s k compressed ev).2.2 =
        ev ++ [.allocSlot slot, .writeSlot slot,
          .appendBatch s.metadata.next_sequence, .cacheRemove] ∧
      (SlabStorage.setFinish now s k compressed ev).2.1.allocator.read slot =
        .ok compressed ∧
      slot.size_class <
        (SlabStorage.setFinish now s k compressed ev).2.1.allocator.size_classes.length ∧
      (SlabStorage.setFinish now s k compressed ev).2.1.allocator.files.length =
        (SlabStorage.setFinish now s k compressed ev).2.1.allocator.size_classes.length ∧
      (SlabStorage.setFinish now s k compressed ev).2.1.allocator.size_classes.map
          SizeClass.slot_size =
        s.allocator.size_classes.map SizeClass.slot_size := by
  obtain ⟨slot, a₂, halloc, hsclt, hfiles, hset, hsz, hoff⟩ :=
    SlabAllocator.allocate_ok s.allocator compressed.length hfit
  have ha2len : a₂.size_classes.length = s.allocator.size_classes.length := by
    rw [hset]; simp
  have ha2sz : (a₂.size_classes.getD slot.size_class default).slot_size =
      (s.allocator.size_classes.getD slot.size_class default).slot_size := by
    rw [hset, getD_set_self _ _ _ _ hsclt, SizeClass.alloc_slot_size]
  have ha2map : a₂.size_classes.map SizeClass.slot_size =
      s.allocator.size_classes.map SizeClass.slot_size := by
    rw [hset]
    exact map_slot_size_set _ _ _ (SizeClass.alloc_slot_size _)
  have hf2 : slot.size_class < a₂.files.length := by
    rw [hfiles, hlen]; exact hsclt
  have hc2 : slot.size_class < a₂.size_classes.length := by rw [ha2len]; exact hsclt
  have hsz2 : compressed.length + 4 ≤
      (a₂.size_classes.getD slot.size_class default).slot_size := by
    rw [ha2sz]; exact hsz
  obtain ⟨hw1, hw2, hw3⟩ := SlabAllocator.write_ok a₂ slot compressed hf2 hc2 hsz2
  obtain ⟨a₃, hw⟩ : ∃ a₃, a₂.write slot compressed = (.ok (), a₃) :=
    ⟨(a₂.write slot compressed).2, by rw [← hw1]⟩
  simp only [hw] at hw2 hw3
  have hlt : compressed.length < 2 ^ 32 := by
    have hmem : s.allocator.size_classes.getD slot.size_class default ∈
        s.allocator.size_classes := by
      rw [List.getD_eq_getElem _ default hsclt]
      exact List.getElem_mem _
    have := hszlt _ hmem
    omega
  have hread : a₃.read slot = .ok compressed := by
    apply SlabAllocator.read_write_roundtrip (a₂.files.getD slot.size_class [])
    · rw [hw3]; simpa using hf2
    · exact hlt
    · rw [hw3]
      exact getD_set_self _ _ _ _ hf2
  have h7 : slot.size_class < a₃.size_classes.length := by
    rw [hw2, ha2len]; exact hsclt
  have h8 : a₃.files.length = a₃.size_classes.length := by
    rw [hw2, hw3]
    simp only [List.length_set]
    rw [hfiles, hlen, ha2len]
  have h9 : a₃.size_classes.map SizeClass.slot_size =
      s.allocator.size_classes.map SizeClass.slot_size := by
    rw [hw2, ha2map]
  refine ⟨slot, ?_⟩
  simp only [SlabStorage.setFinish, halloc, hw]
  exact ⟨trivial, trivial, trivial, trivial, trivial, hread, h7, h8, h9⟩

theorem SlabStorage.setCore_spec (z : ZstdCodec) (now : Nat) (s : SlabStorage)
    (k v : List Nat)
    (hfit : (compress z v s.compression).length + 4 ≤ s.allocator.maxSlotSize)
    (hszlt : ∀ sc ∈ s.allocator.size_classes, sc.slot_size < 2 ^ 32)
    (hlen : s.allocator.files.length = s.allocator.size_classes.length)
    (hold : ∀ old, s.metadata.get k = some old →
      old.size_class < s.allocator.size_classes.length) :
    ∃ slot,
      (SlabStorage.setCore z now s k v).1 = .ok () ∧
      (SlabStorage.setCore z now s k v).2.1.metadata =
        s.metadata.write_batch now [(k, slot)] ∧
      (SlabStorage.setCore z now s k v).2.1.cache = s.cache.remove k ∧
      (SlabStorage.setCore z now s k v).2.1.compression = s.compression ∧
      (SlabStorage.setCore z now s k v).2.1.allocator.read slot =
        .ok (compress z v s.compression) ∧
      slot.size_class <
        (SlabStorage.setCore z now s k v).2.1.allocator.size_classes.length ∧
      (SlabStorage.setCore z now s k v).2.1.allocator.files.length =
        (SlabStorage.setCore z now s k v).2.1.allocator.size_classes.length ∧
      (SlabStorage.setCore z now s k v).2.1.allocator.size_classes.map
          SizeClass.slot_size =
        s.allocator.size_classes.map SizeClass.slot_size := by
  have hpos : ∃ sc ∈ s.allocator.size_classes,
      (compress z v s.compression).length + 4 ≤ sc.slot_size :=
    exists_fit_of_le_max s.allocator _ (by omega) hfit
  cases hmk : s.metadata.get k with
  | none =>
    have hunf : SlabStorage.setCore z now s k v =
        SlabStorage.setFinish now s k (compress z v s.compression) [] := by
      simp only [SlabStorage.setCore, hmk]
    obtain ⟨slot, hA, hB, hC, hD, _, hF, hG, hH, hI⟩ :=
      SlabStorage.setFinish_spec now s k (compress z v s.compression) []
        hpos hszlt hlen
    rw [hunf]
    exact ⟨slot, hA, hB, hC, hD, hF, hG, hH, hI⟩
  | some old =>
    have hvalid := hold old hmk
    obtain ⟨hf1, hffiles, hfclasses⟩ := SlabAllocator.free_ok s.allocator old hvalid
    obtain ⟨a₁, hfr⟩ : ∃ a₁, s.allocator.free old = (.ok (), a₁) :=
      ⟨(s.allocator.free old).2, by rw [← hf1]⟩
    simp only [hfr] at hffiles hfclasses
    have hmap1 : a₁.size_classes.map SizeClass.slot_size =
        s.allocator.size_classes.map SizeClass.slot_size := by
      rw [hfclasses]
      exact map_slot_size_set _ _ _ rfl
    have hfit' : ∃ sc ∈ a₁.size_classes,
        (compress z v s.compression).length + 4 ≤ sc.slot_size :=
      exists_size_congr _ _ hmap1
        (fun n => (compress z v s.compression).length + 4 ≤ n) hpos
    have hszlt' : ∀ sc ∈ a₁.size_classes, sc.slot_size < 2 ^ 32 :=
      forall_size_congr _ _ hmap1 (fun n => n < 2 ^ 32) hszlt
    have hlen' : a₁.files.length = a₁.size_classes.length := by
      rw [hffiles, hfclasses]
      simpa using hlen
    have hunf : SlabStorage.setCore z now s k v =
        SlabStorage.setFinish now { s with allocator := a₁ } k
          (compress z v s.compression) [.freeSlot old] := by
      simp only [SlabStorage.setCore, hmk, hfr]
    obtain ⟨slot, hA, hB, hC, hD, _, hF, hG, hH, hI⟩ :=
      SlabStorage.setFinish_spec now { s with allocator := a₁ } k
        (compress z v s.compression) [.freeSlot old] hfit' hszlt' hlen'
    rw [hunf]
    exact ⟨slot, hA, hB, hC, hD, hF, hG, hH, hI.trans hmap1⟩

/-! ## Claim theorems -/

/-- C1. For every key `k` and value `v` whose compressed payload plus
4-byte length prefix fits in the largest slot class, after
`SlabStorage::set(k, v)` a subsequent `SlabStorage::get(k)` returns
exactly `v`; and after `SlabStorage::delete(k)`, `get(k)` returns none
and `contains_key(k)` is false. The hypotheses state (i) that the codec
round-trips on `v` (the contract of the external zstd crate; the
identity for `CompressionAlgorithm::None`), and (ii) structural
well-formedness of the storage state that `SlabStorage::with_options`
establishes: slot sizes fit a `u32` length prefix, the class table and
file table have equal length, and any existing mapping of `k` points at
a valid class. -/
theorem c1_roundtrip (z : ZstdCodec) (now : Nat) (s : SlabStorage) (k v : List Nat)
    (hcodec : decompress z (compress z v s.compression) s.compression = .ok v)
    (hfit : (compress z v s.compression).length + 4 ≤ s.allocator.maxSlotSize)
    (hszlt : ∀ sc ∈ s.allocator.size_classes, sc.slot_size < 2 ^ 32)
    (hlen : s.allocator.files.length = s.allocator.size_classes.length)
    (hold : ∀ old, s.metadata.get k = some old →
      old.size_class < s.allocator.size_classes.length) :
    (SlabStorage.set z now s k v).1 = .ok () ∧
    (SlabStorage.get z (SlabStorage.set z now s k v).2 k).1 = .ok (some v) ∧
    (SlabStorage.delete (SlabStorage.set z now s k v).2 k).1 = .ok true ∧
    (SlabStorage.get z
      (SlabStorage.delete (SlabStorage.set z now s k v).2 k).2 k).1 = .ok none ∧
    SlabStorage.contains_key
      (SlabStorage.delete (SlabStorage.set z now s k v).2 k).2 k = false := by
  obtain ⟨slot, hA, hB, hC, hD, hE, hF, hG, hH⟩ :=
    SlabStorage.setCore_spec z now s k v hfit hszlt hlen hold
  have hs1 : (SlabStorage.set z now s k v).2 = (SlabStorage.setCore z now s k v).2.1 :=
    rfl
  rw [hs1]
  have hhit : ((SlabStorage.setCore z now s k v).2.1.cache.get k).1 = none := by
    rw [hC]
    exact SlabCache.get_remove_self _ _
  have hmget : (SlabStorage.setCore z now s k v).2.1.metadata.get k = some slot := by
    rw [hB]
    show Index.find (s.metadata.write_batch now [(k, slot)]).index k = some slot
    rw [(MetadataStore.write_batch_single s.metadata now k slot).1]
    exact Index.find_insert_self _ _ _
  refine ⟨hA, ?_, ?_, ?_, ?_⟩
  · simp only [SlabStorage.get, hhit, hmget, hE, hD, hcodec]
  · simp only [SlabStorage.delete, hmget]
    obtain ⟨hfr1, _, _⟩ :=
      SlabAllocator.free_ok (SlabStorage.setCore z now s k v).2.1.allocator slot hF
    obtain ⟨a₁, hfr⟩ : ∃ a₁,
        (SlabStorage.setCore z now s k v).2.1.allocator.free slot = (.ok (), a₁) :=
      ⟨_, by rw [← hfr1]⟩
    simp only [hfr]
  · obtain ⟨hfr1, _, _⟩ :=
      SlabAllocator.free_ok (SlabStorage.setCore z now s k v).2.1.allocator slot hF
    obtain ⟨a₁, hfr⟩ : ∃ a₁,
        (SlabStorage.setCore z now s k v).2.1.allocator.free slot = (.ok (), a₁) :=
      ⟨_, by rw [← hfr1]⟩
    have hc2 : (SlabStorage.delete (SlabStorage.setCore z now s k v).2.1 k).2.cache =
        (SlabStorage.setCore z now s k v).2.1.cache.remove k := by
      simp only [SlabStorage.delete, hmget, hfr]
    have hm2 : (SlabStorage.delete (SlabStorage.setCore z now s k v).2.1 k).2.metadata =
        (SlabStorage.setCore z now s k v).2.1.metadata.remove k := by
      simp only [SlabStorage.delete, hmget, hfr]
    have hhit2 : (((SlabStorage.delete (SlabStorage.setCore z now s k v).2.1 k).2.cache.get
        k)).1 = none := by
      rw [hc2]
      exact SlabCache.get_remove_self _ _
    have hm2get : (SlabStorage.delete (SlabStorage.setCore z now s k v).2.1 k).2.metadata.get
        k = none := by
      rw [hm2]
      show Index.find (Index.erase (SlabStorage.setCore z now s k v).2.1.metadata.index k) k
        = none
      exact Index.find_erase_self _ _
    simp only [SlabStorage.get, hhit2, hm2get]
  · obtain ⟨hfr1, _, _⟩ :=
      SlabAllocator.free_ok (SlabStorage.setCore z now s k v).2.1.allocator slot hF
    obtain ⟨a₁, hfr⟩ : ∃ a₁,
        (SlabStorage.setCore z now s k v).2.1.allocator.free slot = (.ok (), a₁) :=
      ⟨_, by rw [← hfr1]⟩
    have hm2 : (SlabStorage.delete (SlabStorage.setCore z now s k v).2.1 k).2.metadata =
        (SlabStorage.setCore z now s k v).2.1.metadata.remove k := by
      simp only [SlabStorage.delete, hmget, hfr]
    have hm2get : (SlabStorage.delete (SlabStorage.setCore z now s k v).2.1 k).2.metadata.get
        k = none := by
      rw [hm2]
      show Index.find (Index.erase (SlabStorage.setCore z now s k v).2.1.metadata.index k) k
        = none
      exact Index.find_erase_self _ _
    simp only [SlabStorage.contains_key, hm2get, Option.isSome_none]

/-- Witness for C1: the round trip evaluated on a fresh one-class store
with key `[1]` and value `[9, 9]`. -/
theorem c1_roundtrip_witness :
    (SlabStorage.set idZstd 0 demoStore [1] [9, 9]).1 = .ok () ∧
    (SlabStorage.get idZstd (SlabStorage.set idZstd 0 demoStore [1] [9, 9]).2
      [1]).1 = .ok (some [9, 9]) ∧
    (SlabStorage.delete (SlabStorage.set idZstd 0 demoStore [1] [9, 9]).2
      [1]).1 = .ok true ∧
    (SlabStorage.get idZstd
      (SlabStorage.delete (SlabStorage.set idZstd 0 demoStore [1] [9, 9]).2
        [1]).2 [1]).1 = .ok none ∧
    SlabStorage.contains_key
      (SlabStorage.delete (SlabStorage.set idZstd 0 demoStore [1] [9, 9]).2
        [1]).2 [1] = false :=
  c1_roundtrip idZstd 0 demoStore [1] [9, 9] rfl (by decide) (by decide) rfl
    (fun _old h => nomatch h)

/-- C10. For every key `k` not present in the metadata index,
`SlabStorage::delete(k)` returns `false` without error and returns the
state unchanged: the metadata index and log, every size class's free
heap and `next_offset`, and the cache are exactly those of the input
state. -/
theorem c10_delete_missing (s : SlabStorage) (k : List Nat)
    (h : s.metadata.get k = none) :
    SlabStorage.delete s k = (.ok false, s) := by
  unfold SlabStorage.delete
  rw [h]

/-- Witness for C10: deleting an absent key on a fresh store. -/
theorem c10_delete_missing_witness :
    SlabStorage.delete demoStore [1] = (.ok false, demoStore) :=
  c10_delete_missing demoStore [1] rfl

/-- C5. `compact()` does not change the observable in-memory index or
the value readable for any key: the result of `get` is unchanged for
every key, the index is untouched, the new log contents are the single
batch with sequence 0 holding all live mappings, and the sequence
counter is reset to 1. (The `metadata.log.tmp` write, fsync and atomic
rename are the I/O mechanics of this replacement.) -/
theorem c5_compact_preserves (z : ZstdCodec) (s : SlabStorage) (now : Nat)
    (k : List Nat) :
    (SlabStorage.get z (SlabStorage.compact_metadata s now) k).1 =
      (SlabStorage.get z s k).1 ∧
    (SlabStorage.compact_metadata s now).metadata.index = s.metadata.index ∧
    (SlabStorage.compact_metadata s now).metadata.next_sequence = 1 ∧
    (SlabStorage.compact_metadata s now).metadata.log =
      some (MetadataBatch.new 0 now s.metadata.index).to_bytes := by
  refine ⟨?_, rfl, rfl, rfl⟩
  simp only [SlabStorage.get, SlabStorage.compact_metadata, MetadataStore.compact,
    MetadataStore.get]
  cases h1 : (s.cache.get k).1 with
  | some p =>
    rcases p with ⟨slot0, data0⟩
    simp only [h1]
  | none =>
    simp only [h1]
    cases h2 : Index.find s.metadata.index k with
    | none => simp only [h2]
    | some slot =>
      simp only [h2]
      cases h3 : s.allocator.read slot with
      | error e => simp only [h3]
      | ok compressed =>
        simp only [h3]
        cases h4 : decompress z compressed s.compression with
        | error e => simp only [h4]
        | ok data => simp only [h4]

/-- The tail of `set` always extends the event list it is given: every
event it appends comes after the events already recorded. -/
theorem SlabStorage.setFinish_events_extend (now : Nat) (s : SlabStorage)
    (k c : List Nat) (ev : List Event) :
    ∃ tail, (SlabStorage.setFinish now s k c ev).2.2 = ev ++ tail := by
  unfold SlabStorage.setFinish
  rcases h : s.allocator.allocate c.length with ⟨r, a₂⟩
  cases r with
  | error e => exact ⟨[], by simp⟩
  | ok slot =>
    rcases hw : a₂.write slot c with ⟨rw, a₃⟩
    cases rw with
    | error e => exact ⟨[.allocSlot slot], by simp [hw]⟩
    | ok u => exact ⟨[.allocSlot slot, .writeSlot slot,
        .appendBatch s.metadata.next_sequence, .cacheRemove], by simp [hw]⟩

/-- C6 (amended). On `set` of a key that already has a valid mapping,
the old slot is returned to its class's free heap as the very first
side-effecting step — before the new slot is allocated and written, and
before the metadata batch is appended and fsync'd. (The claim as
written — free only after the batch is durable — is the opposite order;
see the counterexample.) -/
theorem c6_free_before_durable (z : ZstdCodec) (now : Nat) (s : SlabStorage)
    (k v : List Nat) (old : SlotId)
    (hmk : s.metadata.get k = some old)
    (hvalid : old.size_class < s.allocator.size_classes.length) :
    ∃ es, SlabStorage.setEvents z now s k v = Event.freeSlot old :: es := by
  obtain ⟨hf1, _, _⟩ := SlabAllocator.free_ok s.allocator old hvalid
  obtain ⟨a₁, hfr⟩ : ∃ a₁, s.allocator.free old = (.ok (), a₁) :=
    ⟨(s.allocator.free old).2, by rw [← hf1]⟩
  obtain ⟨tail, htail⟩ := SlabStorage.setFinish_events_extend now
    { s with allocator := a₁ } k (compress z v s.compression) [.freeSlot old]
  refine ⟨tail, ?_⟩
  simp only [SlabStorage.setEvents, SlabStorage.setCore, hmk, hfr]
  rw [htail]
  rfl

/-- Counterexample for C6: on a store where key `[1]` is already set,
the trace of a second `set` frees the old slot at position 0, while the
durable batch append happens only at position 3 — the old slot is
returned to the free heap before the new batch is durable, refuting the
claim. -/
theorem c6_counterexample :
    (SlabStorage.setEvents idZstd 1
        (SlabStorage.set idZstd 0 demoStore [1] [2, 3]).2 [1] [9, 9]).findIdx?
      Event.isFree = some 0 ∧
    (SlabStorage.setEvents idZstd 1
        (SlabStorage.set idZstd 0 demoStore [1] [2, 3]).2 [1] [9, 9]).findIdx?
      Event.isAppend = some 3 ∧
    (0 : Nat) < 3 := by
  decide

/-- C8. The operators the spec leaves unspecified are dispatched (at
`executor.rs:661-992`) to handler stubs that return a fixed successful
dummy value — not a structured `Unimplemented` failure: `Insert` reports
`{"inserted": 1, "errors": 0}` as if a document had been written,
`Update` a zeroed write report, `Append` and `Map` an empty array,
`GetField` null, and `Contains` false, for every term and context. -/
theorem c8_unimplemented_stubs_return_ok (t : Term) (c : ExecutionContext) :
    QueryExecutor.insert t c = .ok (Datum.object
      [(ascii "inserted", .number 1), (ascii "errors", .number 0)]) ∧
    QueryExecutor.update t c = .ok (Datum.object
      [(ascii "replaced", .number 0), (ascii "unchanged", .number 0),
        (ascii "errors", .number 0)]) ∧
    QueryExecutor.append t c = .ok (Datum.array []) ∧
    QueryExecutor.get_field t c = .ok Datum.null ∧
    QueryExecutor.map t c = .ok (Datum.array []) ∧
    QueryExecutor.contains t c = .ok (Datum.boolean false) :=
  ⟨rfl, rfl, rfl, rfl, rfl, rfl⟩

/-- Witness for C6 (amended): on the store where `[1]` was just set, the
old slot `(0, 0)` is freed first by the next set of the same key. -/
theorem c6_free_before_durable_witness :
    ∃ es, SlabStorage.setEvents idZstd 1
      (SlabStorage.set idZstd 0 demoStore [1] [2, 3]).2 [1] [9, 9] =
        Event.freeSlot (SlotId.new 0 0) :: es :=
  c6_free_before_durable idZstd 1 _ [1] [9, 9] (SlotId.new 0 0) (by decide)
    (by decide)

/-- C4. `allocate(n)` picks the smallest size class whose `slot_size` is
at least `n + 4` (first fit over the ascending class table): the chosen
class fits, no class of smaller slot size fits, the offset is the
minimum of the class's free heap when the heap is non-empty (with that
occurrence removed), and otherwise the class's `next_offset`, which
advances by `slot_size`; when no class fits, allocate fails with the
size-exceeds error. -/
theorem c4_allocate_spec (a : SlabAllocator) (n : Nat)
    (hsorted : a.size_classes.Pairwise
      (fun x y => x.slot_size ≤ y.slot_size)) :
    ((∃ sc ∈ a.size_classes, n + 4 ≤ sc.slot_size) →
      ∃ slot a', a.allocate n = (.ok slot, a') ∧
        slot.size_class < a.size_classes.length ∧
        n + 4 ≤ (a.size_classes.getD slot.size_class default).slot_size ∧
        (∀ sc ∈ a.size_classes, n + 4 ≤ sc.slot_size →
          (a.size_classes.getD slot.size_class default).slot_size ≤ sc.slot_size) ∧
        a'.files = a.files ∧
        ((a.size_classes.getD slot.size_class default).free_slots = [] →
          slot.offset = (a.size_classes.getD slot.size_class default).next_offset ∧
          a'.size_classes = a.size_classes.set slot.size_class
            { a.size_classes.getD slot.size_class default with
              next_offset := (a.size_classes.getD slot.size_class default).next_offset
                + (a.size_classes.getD slot.size_class default).slot_size }) ∧
        ((a.size_classes.getD slot.size_class default).free_slots ≠ [] →
          slot.offset ∈ (a.size_classes.getD slot.size_class default).free_slots ∧
          (∀ x ∈ (a.size_classes.getD slot.size_class default).free_slots,
            slot.offset ≤ x) ∧
          a'.size_classes = a.size_classes.set slot.size_class
            { a.size_classes.getD slot.size_class default with
              free_slots := (a.size_classes.getD slot.size_class default).free_slots.erase
                slot.offset })) ∧
    ((∀ sc ∈ a.size_classes, sc.slot_size < n + 4) →
      (a.allocate n).1 = .error (.sizeExceedsMax n (n + 4))) := by
  constructor
  · intro hex
    obtain ⟨slot, a', halloc, hsclt, hfiles, hset, hsz, hoff⟩ :=
      SlabAllocator.allocate_ok a n hex
    refine ⟨slot, a', halloc, hsclt, hsz, ?_, hfiles, ?_, ?_⟩
    · -- minimality among fitting classes, via first-fit + sortedness
      intro sc hmem hfit
      rcases List.mem_iff_getElem.mp hmem with ⟨j', hj', hj'eq⟩
      have hspec : ∃ j, j < a.size_classes.length ∧ slot.size_class = 0 + j ∧
          (a.size_classes.getD j default).can_fit (n + 4) = true ∧
          slot.offset = ((a.size_classes.getD j default).alloc).1 ∧
          a'.size_classes = a.size_classes.set j
            ((a.size_classes.getD j default).alloc).2 ∧
          ∀ i, i < j → (a.size_classes.getD i default).can_fit (n + 4) = false := by
        have hne : SlabAllocator.allocAux a.size_classes (n + 4) 0 ≠ none := by
          intro hnone
          obtain ⟨sc0, hmem0, hle0⟩ := hex
          have := (allocAux_none a.size_classes (n + 4) 0).mp hnone sc0 hmem0
          simp [SizeClass.can_fit] at this
          omega
        rcases ha : SlabAllocator.allocAux a.size_classes (n + 4) 0 with
          _ | ⟨idx, off, cs⟩
        · exact absurd ha hne
        · have hall : a.allocate n = (.ok (SlotId.new idx off),
              { a with size_classes := cs }) := by
            simp only [SlabAllocator.allocate]
            rw [ha]
          rw [hall] at halloc
          have hslot : slot = SlotId.new idx off := by
            have := congrArg Prod.fst halloc
            simpa using this.symm
          obtain ⟨j, h1, h2, h3, h4, h5, h6⟩ :=
            allocAux_some_spec a.size_classes (n + 4) 0 idx off cs ha
          refine ⟨j, h1, by rw [hslot]; simpa [SlotId.new] using h2, h3, ?_, ?_, h6⟩
          · rw [hslot]; simpa [SlotId.new] using h4
          · have := congrArg Prod.snd halloc
            simp at this
            rw [← this, h5]
      obtain ⟨j, hjlen, hjeq, _, _, _, hprev⟩ := hspec
      have hj0 : slot.size_class = j := by omega
      by_cases hcmp : j ≤ j'
      · have hpg := List.pairwise_iff_getElem.mp hsorted
        rcases Nat.lt_or_ge j j' with hlt | hge
        · have hp := hpg j j' hjlen hj' hlt
          rw [hj0, List.getD_eq_getElem _ default hjlen]
          rw [← hj'eq]
          exact hp
        · have hjj : j = j' := by omega
          subst hjj
          rw [hj0, List.getD_eq_getElem _ default hjlen, hj'eq]
      · have hlt : j' < j := by omega
        have hpv := hprev j' hlt
        rw [List.getD_eq_getElem _ default hj'] at hpv
        simp only [SizeClass.can_fit, decide_eq_false_iff_not] at hpv
        rw [hj'eq] at hpv
        omega
    · -- fresh-offset case: empty free heap
      intro hempty
      have halloceq : (a.size_classes.getD slot.size_class default).alloc =
          ((a.size_classes.getD slot.size_class default).next_offset,
            { a.size_classes.getD slot.size_class default with
              next_offset := (a.size_classes.getD slot.size_class default).next_offset
                + (a.size_classes.getD slot.size_class default).slot_size }) := by
        unfold SizeClass.alloc
        rw [show popMin (a.size_classes.getD slot.size_class default).free_slots
            = none by rw [hempty]; rfl]
      constructor
      · rw [hoff, halloceq]
      · rw [hset, halloceq]
    · -- reuse case: non-empty free heap
      intro hne
      rcases hmin : listMin (a.size_classes.getD slot.size_class default).free_slots
        with _ | m
      · exact absurd (listMin_isSome _ hne) (by rw [hmin]; simp)
      · have halloceq : (a.size_classes.getD slot.size_class default).alloc =
            (m, { a.size_classes.getD slot.size_class default with
              free_slots := (a.size_classes.getD slot.size_class default).free_slots.erase
                m }) := by
          unfold SizeClass.alloc
          rw [show popMin (a.size_classes.getD slot.size_class default).free_slots
              = some (m, (a.size_classes.getD slot.size_class default).free_slots.erase
                m) by unfold popMin; rw [hmin]]
        have hoffm : slot.offset = m := by rw [hoff, halloceq]
        refine ⟨?_, ?_, ?_⟩
        · rw [hoffm]; exact listMin_mem _ m hmin
        · intro x hx; rw [hoffm]; exact listMin_le _ m hmin x hx
        · rw [hset, halloceq, hoffm]
  · intro hall
    have hnone : SlabAllocator.allocAux a.size_classes (n + 4) 0 = none :=
      (allocAux_none a.size_classes (n + 4) 0).mpr (by
        intro sc hmem
        have := hall sc hmem
        simp [SizeClass.can_fit]
        omega)
    simp only [SlabAllocator.allocate]
    rw [hnone]

/-- Witness for C4: allocating 100 bytes on a fresh two-class table
(64 and 112 bytes) succeeds in a class of at least 104 bytes. -/
theorem c4_allocate_spec_witness :
    ∃ slot a', (SlabAllocator.new [64, 112]).allocate 100 = (.ok slot, a') ∧
      slot.size_class < (SlabAllocator.new [64, 112]).size_classes.length ∧
      100 + 4 ≤ ((SlabAllocator.new [64, 112]).size_classes.getD
        slot.size_class default).slot_size := by
  obtain ⟨slot, a', h1, h2, h3, _⟩ :=
    (c4_allocate_spec (SlabAllocator.new [64, 112]) 100 (by decide)).1 (by decide)
  exact ⟨slot, a', h1, h2, h3⟩

set_option maxRecDepth 4000

/-- C2 (amended). Opening a missing log yields next sequence 0; after
`write_batch([(k1,s1),(k2,s2)])` then `write_batch([(k1,s3)])` on a
fresh store, reopening yields `get(k1)=s3`, `get(k2)=s2`, `len=2` and
next sequence 2 (sequence numbers start at 0, so the two batches carry
sequences 0 and 1 and recovery sets `max+1 = 2`, not 3 as the claim
says); and in general replaying a log of well-formed batches rebuilds
the folded index and sets the next sequence to the maximum seen
sequence plus one. -/
theorem c2_metadata_recovery :
    MetadataStore.openStore none = .ok ⟨none, Index.empty, 0⟩ ∧
    (MetadataStore.openStore c2Store.log).map
      (fun st => (st.get c2k1, st.get c2k2, st.size, st.next_sequence)) =
      .ok (some c2s3, some c2s2, 2, 2) ∧
    ∀ (bs : List MetadataBatch), (∀ b ∈ bs, b.wf) →
      MetadataStore.openStore (some (logBytes bs)) =
        .ok ⟨some (logBytes bs), logIndex bs, logMaxSeq bs + 1⟩ := by
  refine ⟨rfl, ?_, ?_⟩
  · have hlog : c2Store.log = some (logBytes
        [⟨0, 11, [(c2k1, c2s1), (c2k2, c2s2)]⟩, ⟨1, 22, [(c2k1, c2s3)]⟩]) := by
      decide
    rw [hlog, openStore_logBytes _ (by decide)]
    rfl
  · intro bs h
    exact openStore_logBytes bs h

/-- Witness for C2 (amended): the general replay rule applied to a
one-batch log. -/
theorem c2_metadata_recovery_witness :
    MetadataStore.openStore (some (logBytes [MetadataBatch.new 5 7 [(c2k1, c2s1)]])) =
      .ok ⟨some (logBytes [MetadataBatch.new 5 7 [(c2k1, c2s1)]]),
        logIndex [MetadataBatch.new 5 7 [(c2k1, c2s1)]],
        logMaxSeq [MetadataBatch.new 5 7 [(c2k1, c2s1)]] + 1⟩ :=
  c2_metadata_recovery.2.2 [MetadataBatch.new 5 7 [(c2k1, c2s1)]] (by decide)

/-- Counterexample for C2: after the scenario's two batches, reopening
the store yields next sequence 2, not 3 as the claim states. -/
theorem c2_counterexample :
    (MetadataStore.openStore c2Store.log).map (fun st => st.next_sequence) =
      .ok 2 ∧
    (MetadataStore.openStore c2Store.log).map (fun st => st.next_sequence) ≠
      .ok 3 := by
  have hlog : c2Store.log = some (logBytes
      [⟨0, 11, [(c2k1, c2s1), (c2k2, c2s2)]⟩, ⟨1, 22, [(c2k1, c2s3)]⟩]) := by
    decide
  have h : (MetadataStore.openStore c2Store.log).map (fun st => st.next_sequence) =
      .ok 2 := by
    rw [hlog, openStore_logBytes _ (by decide)]
    rfl
  exact ⟨h, by rw [h]; simp⟩

/-- C3 (amended). Replay truncates gracefully only at checksum failures:
corrupting a byte of a frame's payload makes `from_bytes` fail its
checksum check, replay stops there, open still succeeds, and the index
is the fold of the earlier intact batches. But a frame whose declared
length exceeds the remaining file size does NOT truncate gracefully:
the `read_exact` error is propagated with `?` and open fails with
"Failed to read batch". -/
theorem c3_replay_truncation :
    (∀ (bs : List MetadataBatch), (∀ x ∈ bs, x.wf) →
      ∀ (b : MetadataBatch), b.wf →
      ∀ i, i < b.jsonEnc.length → ∀ v, v ≠ b.jsonEnc.getD i 0 →
      ∀ rest : List Nat,
        MetadataStore.openStore
            (some (logBytes bs ++ (b.to_bytes.set (4 + i) v ++ rest))) =
          .ok ⟨some (logBytes bs ++ (b.to_bytes.set (4 + i) v ++ rest)),
            logIndex bs, logMaxSeq bs + 1⟩) ∧
    (∀ (bs : List MetadataBatch), (∀ x ∈ bs, x.wf) →
      ∀ (n : Nat), n < 2 ^ 32 → ∀ body : List Nat, body.length < n + 4 →
        MetadataStore.openStore (some (logBytes bs ++ (u32le n ++ body))) =
          .error .readBatchFailed) :=
  ⟨fun bs h b hb i hi v hv rest => openStore_corrupt bs h b hb i v hi hv rest,
    fun bs h n hn body hb => openStore_incomplete bs h n hn body hb⟩

/-- Witness for C3 (amended): on a log holding one corrupted frame open
succeeds with an empty index, and on a log holding one short frame that
declares 100 payload bytes open fails. -/
theorem c3_replay_truncation_witness :
    MetadataStore.openStore
        (some (logBytes [] ++ ((MetadataBatch.new 0 0 []).to_bytes.set (4 + 0) 1
          ++ []))) =
      .ok ⟨some (logBytes [] ++ ((MetadataBatch.new 0 0 []).to_bytes.set (4 + 0) 1
        ++ [])), logIndex [], logMaxSeq [] + 1⟩ ∧
    MetadataStore.openStore (some (logBytes [] ++ (u32le 100 ++ []))) =
      .error .readBatchFailed :=
  ⟨c3_replay_truncation.1 [] (by decide) (MetadataBatch.new 0 0 []) (by decide)
      0 (by decide) 1 (by decide) [],
    c3_replay_truncation.2 [] (by decide) 100 (by decide) [] (by decide)⟩

/-- Counterexample for C3: a log consisting of the single short frame
`[100, 0, 0, 0]` (declared payload length 100, no bytes following)
fails the length check, and open returns the propagated read error
instead of succeeding with an empty index as the claim states. -/
theorem c3_counterexample :
    MetadataStore.openStore (some [100, 0, 0, 0]) = .error .readBatchFailed ∧
    (MetadataStore.openStore (some [100, 0, 0, 0])).toOption = none := by
  have h : MetadataStore.openStore (some [100, 0, 0, 0]) =
      .error .readBatchFailed := by
    have h4 : ([100, 0, 0, 0] : List Nat) = logBytes [] ++ (u32le 100 ++ []) := by
      decide
    rw [h4]
    exact openStore_incomplete [] (by decide) 100 (by decide) [] (by decide)
  exact ⟨h, by rw [h]; rfl⟩

/-- C7 (amended). `create_database` performs no existence check: under
the structural invariants of an opened store (in particular also when
`dbKey name` is already mapped — the `hold` hypothesis covers the
present case), it returns `Ok(())` rather than an AlreadyExists error,
and afterwards the database key reads back the freshly serialized
`{"name": name}` document — an existing database is silently
overwritten. -/
theorem c7_create_database_overwrites (z : ZstdCodec) (now : Nat)
    (s : SlabStorage) (name : List Nat)
    (hcodec : decompress z (compress z (SlabStorageEngine.dbDoc name)
      s.compression) s.compression = .ok (SlabStorageEngine.dbDoc name))
    (hfit : (compress z (SlabStorageEngine.dbDoc name) s.compression).length + 4 ≤
      s.allocator.maxSlotSize)
    (hszlt : ∀ sc ∈ s.allocator.size_classes, sc.slot_size < 2 ^ 32)
    (hlen : s.allocator.files.length = s.allocator.size_classes.length)
    (hold : ∀ old, s.metadata.get (SlabStorageEngine.dbKey name) = some old →
      old.size_class < s.allocator.size_classes.length) :
    (SlabStorageEngine.create_database z now s name).1 = .ok () ∧
    (SlabStorage.get z (SlabStorageEngine.create_database z now s name).2
      (SlabStorageEngine.dbKey name)).1 =
      .ok (some (SlabStorageEngine.dbDoc name)) := by
  obtain ⟨slot, hA, hB, hC, hD, hE, hF, hG, hH⟩ :=
    SlabStorage.setCore_spec z now s (SlabStorageEngine.dbKey name)
      (SlabStorageEngine.dbDoc name) hfit hszlt hlen hold
  have hcd : SlabStorageEngine.create_database z now s name =
      SlabStorage.set z now s (SlabStorageEngine.dbKey name)
        (SlabStorageEngine.dbDoc name) := rfl
  have hs1 : (SlabStorage.set z now s (SlabStorageEngine.dbKey name)
      (SlabStorageEngine.dbDoc name)).2 =
      (SlabStorage.setCore z now s (SlabStorageEngine.dbKey name)
        (SlabStorageEngine.dbDoc name)).2.1 := rfl
  rw [hcd, hs1]
  have hhit : ((SlabStorage.setCore z now s (SlabStorageEngine.dbKey name)
      (SlabStorageEngine.dbDoc name)).2.1.cache.get
      (SlabStorageEngine.dbKey name)).1 = none := by
    rw [hC]
    exact SlabCache.get_remove_self _ _
  have hmget : (SlabStorage.setCore z now s (SlabStorageEngine.dbKey name)
      (SlabStorageEngine.dbDoc name)).2.1.metadata.get
      (SlabStorageEngine.dbKey name) = some slot := by
    rw [hB]
    show Index.find (s.metadata.write_batch now
      [(SlabStorageEngine.dbKey name, slot)]).index
      (SlabStorageEngine.dbKey name) = some slot
    rw [(MetadataStore.write_batch_single s.metadata now
      (SlabStorageEngine.dbKey name) slot).1]
    exact Index.find_insert_self _ _ _
  exact ⟨hA, by simp only [SlabStorage.get, hhit, hmget, hE, hD, hcodec]⟩

/-- Witness for C7 (amended): creating `"db1"` on the fresh demo store
succeeds and the database key reads back the serialized document. -/
theorem c7_create_database_overwrites_witness :
    (SlabStorageEngine.create_database idZstd 0 demoStore dbName1).1 = .ok () ∧
    (SlabStorage.get idZstd
      (SlabStorageEngine.create_database idZstd 0 demoStore dbName1).2
      (SlabStorageEngine.dbKey dbName1)).1 =
      .ok (some (SlabStorageEngine.dbDoc dbName1)) :=
  c7_create_database_overwrites idZstd 0 demoStore dbName1 rfl (by decide)
    (by decide) rfl (fun _old h => nomatch h)

/-- Counterexample for C7: creating `"db1"` twice in a row succeeds both
times — the second call returns `Ok(())` instead of failing with
AlreadyExists. -/
theorem c7_counterexample :
    (SlabStorageEngine.create_database idZstd 0 demoStore dbName1).1 = .ok () ∧
    (SlabStorageEngine.create_database idZstd 1
      (SlabStorageEngine.create_database idZstd 0 demoStore dbName1).2
      dbName1).1 = .ok () := by
  decide

/-- C9 (amended). The server handshake accepts only the three JSON-era
versions: V0_1 is always rejected with "PROTOBUF protocol is no longer
supported" (before even reading an auth key), V0_2 is rejected with the
same error after its auth key is read and validated, V0_3/V0_4/V1_0
are accepted — and for them BOTH wire-protocol magics are accepted,
including PROTOBUF (`WireProtocol::from_magic` admits it and nothing
rejects it). Any version magic outside the five is rejected with
"Unsupported protocol version". -/
theorem c9_handshake_versions :
    (∀ sv input : List Nat,
      Handshake.accept sv (u32le VERSION_V0_1 ++ input) =
        .error .protobufUnsupported) ∧
    (∀ sv key rest : List Nat, key.length ≤ 4096 →
      validUtf8 (stripNul key) = true →
      Handshake.accept sv (u32le VERSION_V0_2 ++ (u32le key.length
        ++ (key ++ rest))) = .error .protobufUnsupported) ∧
    (∀ (sv : List Nat) (m : Nat) (ver : ProtocolVersion),
      ProtocolVersion.from_magic m = .ok ver → ver.supports_json = true →
      m < 2 ^ 32 → ∀ key : List Nat, key.length ≤ 4096 →
      validUtf8 (stripNul key) = true →
      ∀ (pm : Nat) (proto : WireProtocol),
      WireProtocol.from_magic pm = .ok proto → pm < 2 ^ 32 →
      ∀ rest : List Nat,
      Handshake.accept sv (u32le m ++ (u32le key.length
        ++ (key ++ (u32le pm ++ rest)))) =
        .ok (⟨ver, proto, some (stripNul key)⟩, rest,
          (if ver = .v1_0 then v1SuccessResponse sv else ascii "SUCCESS")
            ++ [0])) ∧
    (∀ (sv : List Nat) (m : Nat), m < 2 ^ 32 →
      m ≠ VERSION_V0_1 → m ≠ VERSION_V0_2 → m ≠ VERSION_V0_3 →
      m ≠ VERSION_V0_4 → m ≠ VERSION_V1_0 → ∀ rest : List Nat,
      Handshake.accept sv (u32le m ++ rest) =
        .error (.unsupportedVersion m)) :=
  ⟨accept_v0_1,
    fun sv key rest hk hu => accept_v0_2 sv key rest hk hu,
    fun sv m ver hm hv hm32 key hk hu pm proto hpm hpm32 rest =>
      accept_json_version sv m ver hm hv hm32 key hk hu pm proto hpm hpm32 rest,
    fun sv m hm32 h1 h2 h3 h4 h5 rest =>
      accept_unknown_version sv m hm32 h1 h2 h3 h4 h5 rest⟩

/-- Witness for C9 (amended): the four cases evaluated concretely — a
V0_1 hello, a V0_2 hello with auth key `[97]`, a V0_3 hello with empty
key and the JSON magic, and the unknown magic 0. -/
theorem c9_handshake_versions_witness :
    Handshake.accept [] (u32le VERSION_V0_1 ++ []) =
      .error .protobufUnsupported ∧
    Handshake.accept [] (u32le VERSION_V0_2 ++ (u32le (List.length [97])
      ++ ([97] ++ []))) = .error .protobufUnsupported ∧
    Handshake.accept [] (u32le VERSION_V0_3 ++ (u32le (List.length ([] : List Nat))
      ++ ([] ++ (u32le PROTOCOL_JSON ++ [])))) =
      .ok (⟨.v0_3, .json, some (stripNul [])⟩, [],
        (if ProtocolVersion.v0_3 = .v1_0 then v1SuccessResponse []
          else ascii "SUCCESS") ++ [0]) ∧
    Handshake.accept [] (u32le 0 ++ []) = .error (.unsupportedVersion 0) :=
  ⟨c9_handshake_versions.1 [] [],
    c9_handshake_versions.2.1 [] [97] [] (by decide) (by decide),
    c9_handshake_versions.2.2.1 [] VERSION_V0_3 .v0_3 rfl rfl (by decide)
      [] (by decide) (by decide) PROTOCOL_JSON .json rfl (by decide) [],
    c9_handshake_versions.2.2.2 [] 0 (by decide) (by decide) (by decide)
      (by decide) (by decide) (by decide) []⟩

/-- Counterexample for C9: a V0_2 hello with an empty auth key and the
JSON protocol magic waiting in the stream is rejected (the claim says
all five versions are accepted), and a V0_4 hello offering the PROTOBUF
protocol magic is accepted (the claim says Protobuf is rejected). -/
theorem c9_counterexample :
    Handshake.accept [] (u32le VERSION_V0_2 ++ (u32le (List.length ([] : List Nat))
      ++ ([] ++ u32le PROTOCOL_JSON))) = .error .protobufUnsupported ∧
    Handshake.accept [] (u32le VERSION_V0_4 ++ (u32le (List.length ([] : List Nat))
      ++ ([] ++ (u32le PROTOCOL_PROTOBUF ++ [])))) =
      .ok (⟨.v0_4, .protobuf, some (stripNul [])⟩, [],
        (if ProtocolVersion.v0_4 = .v1_0 then v1SuccessResponse []
          else ascii "SUCCESS") ++ [0]) :=
  ⟨accept_v0_2 [] [] (u32le PROTOCOL_JSON) (by decide) (by decide),
    accept_json_version [] VERSION_V0_4 .v0_4 rfl rfl (by decide) []
      (by decide) (by decide) PROTOCOL_PROTOBUF .protobuf rfl (by decide) []⟩

end PhotonDB
